import Mathlib

/-!
# argolis: command line option scanner

A shallow embedding of `include/argolis.hpp` (`argolis::Parser`) and theorems about it.

Modelling conventions

* A `std::string_view` / `std::string` / `char *` is a list of characters (`Str`).
* The three kinds of callback (`Opt_Spec::_action`, `Parser::_on_err`, `Parser::_on_arg`) are
  user code.  A call of one of them is recorded as an `Event`; a function that may call
  callbacks returns the list of calls it made, oldest first.  Callbacks are taken to return
  normally.
* `argv` is the list of all `argc` strings (program name included); a pointer into `argv`
  is an index, `end` is `argv.length`.
* `assert` is compiled out (`NDEBUG`); every assertion of the header is recorded next to the
  definition that contains it.
-/

namespace argolis

/-- Text: the characters of a `std::string_view`. -/
abbrev Str := List Char

/-- The enumeration `Arg_Policy` (line 17). -/
inductive Arg_Policy where
  | NO_ARG
  | MAYBE_ARG
  | EXPECT_ARG
  deriving DecidableEq, Repr

/-- The class `Opt_Spec` (lines 20-40).  The stored callback `_action` is represented by an
identifier; calling it is recorded as `Event.action`. -/
structure Opt_Spec where
  short_name : Char
  long_name : Str
  arg_policy : Arg_Policy
  action : Nat
  deriving DecidableEq, Repr

/-- The enumeration `Error::Type` (line 44). -/
inductive Error_Type where
  | BAD_OPT
  | MISSING_ARG
  | UNEXPECTED_ARG
  deriving DecidableEq, Repr

/-- The struct `Error` (lines 43-47). -/
structure Error where
  type : Error_Type
  bad_item : Str
  deriving DecidableEq, Repr

/-- One callback invocation made by the parser.
* `action d v`: `d.action(v)`, that is `_action(d, v)` (line 141);
* `on_err e`: `_on_err(e)`;
* `on_arg s`: `_on_arg(s)`. -/
inductive Event where
  | action (spec : Opt_Spec) (value : Option Str)
  | on_err (err : Error)
  | on_arg (arg : Str)
  deriving DecidableEq, Repr

/-- The data members of `Parser` that are not callbacks (lines 70-72). -/
structure Parser where
  specs : List Opt_Spec
  combi_allowed : Bool
  abort_on_error : Bool
  deriving DecidableEq, Repr

/-- The variant `Parser::Item` (lines 83-88). -/
inductive Item where
  | Single_Item (name : Str)
  | Combi_Item (name : Str)
  | Full_Item (name : Str) (value : Str)
  | EOO_Item
  | Arg_Item
  deriving DecidableEq, Repr

/-- The character `s[i]`; reading past the end (undefined in the source, never done by it)
gives the NUL character. -/
def at_ (s : Str) (i : Nat) : Char := s.getD i (Char.ofNat 0)

/-- The call `s.substr(pos)`: the characters from `pos` on. -/
def substr_from (s : Str) (pos : Nat) : Str := s.drop pos

/-- The call `s.substr(pos, count)`: at most `count` characters from `pos` on. -/
def substr (s : Str) (pos count : Nat) : Str := (s.drop pos).take count

/-- The call `s.find(c)`: position of the first `c`, `none` standing for `npos`. -/
def find : Str → Char → Option Nat
  | [], _ => none
  | x :: xs, c => if x = c then some 0 else (find xs c).map (· + 1)

/-- Subtraction of two `size_type` values, wrapping around below zero as unsigned
64-bit arithmetic does. -/
def size_sub (a b : Nat) : Nat := if b ≤ a then a - b else a + 2 ^ 64 - b

/-- The algorithm `std::find_if(first, last, pred)` over a list: the position of the first element
satisfying `pred`, the length of the list (the `end()` iterator) when there is none. -/
def find_if (pred : Opt_Spec → Bool) : List Opt_Spec → Nat
  | [] => 0
  | d :: ds => if pred d then 0 else find_if pred ds + 1

/-- The function `Parser::find_spec` (lines 267-276); the iterator is a position in `specs`.
Line 269 asserts `! name.empty()`. -/
def find_spec (P : Parser) (name : Str) : Option Nat :=
  let it :=
    if name.length = 1 then
      find_if (fun spec => spec.short_name == at_ name 0) P.specs
    else
      find_if (fun spec => spec.long_name == name) P.specs
  if it ≠ P.specs.length then some it else none

/-- The function `Parser::is_arg` (lines 278-281). -/
def is_arg (s : Str) : Bool :=
  decide (s.length < 2) || at_ s 0 != '-'

/-- The function `Parser::parse_item` (lines 283-313).  Assertions: line 290 `s[0] == '-'`,
line 296 `s.length() > 2 && s[0] == '-'`, line 304 `base_pos == 2 || ! _combi_allowed`. -/
def parse_item (P : Parser) (s : Str) : Item :=
  if decide (s.length < 2) || at_ s 0 != '-' then
    Item.Arg_Item
  else if s.length = 2 then
    if at_ s 1 = '-' then Item.EOO_Item else Item.Single_Item (substr_from s 1)
  else
    let base_pos : Nat := if at_ s 1 = '-' then 2 else 1
    if decide (base_pos = 1) && P.combi_allowed then
      Item.Combi_Item (substr_from s base_pos)
    else
      match find s '=' with
      | none => Item.Single_Item (substr_from s base_pos)
      | some eq_pos =>
        Item.Full_Item (substr s base_pos (size_sub eq_pos base_pos)) (substr_from s (eq_pos + 1))

/-- The function `Parser::eval` (lines 315-336): the returned error, if any, and the callback
invocations made (at most the one call of the found descriptor's action, line 334).
`P.specs[it]?` is the dereferenced iterator `*maybe_opt_it`; `find_spec` only returns
positions inside `specs` (`find_spec_lt`), so its `none` case is never taken. -/
def eval (P : Parser) (name : Str) (value : Option Str) : Option Error_Type × List Event :=
  if name.isEmpty then
    (some Error_Type.BAD_OPT, [])
  else
    match find_spec P name with
    | none => (some Error_Type.BAD_OPT, [])
    | some it =>
      match P.specs[it]? with
      | none => (some Error_Type.BAD_OPT, [])
      | some d =>
        if d.arg_policy = Arg_Policy.EXPECT_ARG ∧ value.isNone then
          (some Error_Type.MISSING_ARG, [])
        else if d.arg_policy = Arg_Policy.NO_ARG ∧ value.isSome then
          (some Error_Type.UNEXPECTED_ARG, [])
        else
          (none, [Event.action d value])

/-- The string `*(argv + i)`; reading outside `argv` (never done by the source) gives the
empty string. -/
def token (argv : List Str) (i : Nat) : Str := argv.getD i []

/-- The lambda for `Single_Item` (lines 192-205) at cursor `p`: the pointer it returns and the
callback invocations it makes. -/
def visit_Single (P : Parser) (argv : List Str) (end_ p : Nat) (name : Str) :
    Nat × List Event :=
  let next_is_arg : Bool := decide (p + 1 ≠ end_) && is_arg (token argv (p + 1))
  let next : Option Str := if next_is_arg then some (token argv (p + 1)) else none
  let r := eval P name next
  match r.1 with
  | some err_type =>
    if P.abort_on_error then
      (end_, r.2 ++ [Event.on_err ⟨err_type, token argv p⟩])
    else
      (p + (if next_is_arg then 2 else 1), r.2 ++ [Event.on_err ⟨err_type, token argv p⟩])
  | none => (p + (if next_is_arg then 2 else 1), r.2)

/-- The `for` loop of the `Combi_Item` lambda (lines 211-220), `n` iterations starting at
index `i`: whether the loop left the lambda through `return end` (line 217), and the callback
invocations made.  `tok` is `*p`.  Line 214 asserts that the error is `BAD_OPT` or
`MISSING_ARG`. -/
def combi_for (P : Parser) (tok name : Str) : Nat → Nat → Bool × List Event
  | 0, _ => (false, [])
  | n + 1, i =>
    let r := eval P (substr name i 1) none
    match r.1 with
    | some err_type =>
      if P.abort_on_error then
        (true, r.2 ++ [Event.on_err ⟨err_type, tok⟩])
      else
        let rest := combi_for P tok name n (i + 1)
        (rest.1, r.2 ++ Event.on_err ⟨err_type, tok⟩ :: rest.2)
    | none =>
      let rest := combi_for P tok name n (i + 1)
      (rest.1, r.2 ++ rest.2)

/-- The lambda for `Combi_Item` (lines 206-233).  The loop runs for `i` from `0` up to
`name.length() - 1`, a `size_type` subtraction (line 208 asserts `name.length() > 0`);
lines 222-232 then treat the last character exactly as lines 194-204 treat the name of a
`Single_Item`. -/
def visit_Combi (P : Parser) (argv : List Str) (end_ p : Nat) (name : Str) :
    Nat × List Event :=
  let loop := combi_for P (token argv p) name (size_sub name.length 1) 0
  if loop.1 then
    (end_, loop.2)
  else
    let last := visit_Single P argv end_ p (substr_from name (size_sub name.length 1))
    (last.1, loop.2 ++ last.2)

/-- The lambda for `Full_Item` (lines 234-244). -/
def visit_Full (P : Parser) (argv : List Str) (end_ p : Nat) (name value : Str) :
    Nat × List Event :=
  let r := eval P name (some value)
  match r.1 with
  | some err_type =>
    if P.abort_on_error then
      (end_, r.2 ++ [Event.on_err ⟨err_type, token argv p⟩])
    else
      (p + 1, r.2 ++ [Event.on_err ⟨err_type, token argv p⟩])
  | none => (p + 1, r.2)

/-- What one execution of the body of the option loop leaves behind. -/
structure Step where
  p : Nat
  opt_loop : Bool
  events : List Event
  deriving DecidableEq, Repr

/-- One execution of the body of the option loop (lines 191-255) with the cursor at `p`:
`std::visit` over `parse_item(*p)`. -/
def opt_step (P : Parser) (argv : List Str) (end_ p : Nat) : Step :=
  match parse_item P (token argv p) with
  | Item.Single_Item name =>
    let r := visit_Single P argv end_ p name
    ⟨r.1, true, r.2⟩
  | Item.Combi_Item name =>
    let r := visit_Combi P argv end_ p name
    ⟨r.1, true, r.2⟩
  | Item.Full_Item name value =>
    let r := visit_Full P argv end_ p name value
    ⟨r.1, true, r.2⟩
  | Item.EOO_Item => ⟨p + 1, false, []⟩
  | Item.Arg_Item => ⟨p, false, []⟩

/-- The option loop `while( opt_loop && p < end )` (lines 190-257), at most `fuel` executions of
its body: the final cursor and the callback invocations made. -/
def option_loop (P : Parser) (argv : List Str) (end_ : Nat) : Nat → Nat → Bool → Nat × List Event
  | 0, p, _ => (p, [])
  | fuel + 1, p, opt_loop =>
    if opt_loop && decide (p < end_) then
      let s := opt_step P argv end_ p
      let rest := option_loop P argv end_ fuel s.p s.opt_loop
      (rest.1, s.events ++ rest.2)
    else
      (p, [])

/-- The loop over the remaining free-standing arguments (lines 261-263), at most `fuel`
executions of its body. -/
def arg_loop (argv : List Str) (end_ : Nat) : Nat → Nat → Nat × List Event
  | 0, p => (p, [])
  | fuel + 1, p =>
    if p < end_ then
      let rest := arg_loop argv end_ fuel (p + 1)
      (rest.1, Event.on_arg (token argv p) :: rest.2)
    else
      (p, [])

/-- The two loops of `Parser::parse` started with the cursor at `p` in option mode
(`opt_loop = true`): the final cursor and all callback invocations in order.  Every execution
of a loop body moves the cursor forward or ends the loop, so `argv.length` executions are
enough for each loop (`option_loop_fuel`, `arg_loop_fuel`). -/
def parse_from (P : Parser) (argv : List Str) (p : Nat) : Nat × List Event :=
  let end_ := argv.length
  let opts := option_loop P argv end_ argv.length p true
  let args := arg_loop argv end_ argv.length opts.1
  (args.1, opts.2 ++ args.2)

/-- The function `Parser::parse` (lines 181-265) on `argc = argv.length` strings: the callback
invocations it makes, in order.  Line 183 asserts `argc > 0`. -/
def parse (P : Parser) (argv : List Str) : List Event :=
  (parse_from P argv 1).2

/-! ## Vocabulary of the specification -/

/-- The test by which a descriptor is matched: short-name equality for a one-character name,
long-name equality otherwise. -/
def name_matches (name : Str) (d : Opt_Spec) : Bool :=
  if name.length = 1 then d.short_name == at_ name 0 else d.long_name == name

/-- Descriptor `d`, at position `i` of the registry, is the first one that matches `name`:
it matches and no descriptor registered before it does. -/
def first_match (specs : List Opt_Spec) (name : Str) (i : Nat) (d : Opt_Spec) : Prop :=
  specs[i]? = some d ∧ name_matches name d = true ∧
    ∀ e ∈ specs.take i, name_matches name e = false

instance (specs : List Opt_Spec) (name : Str) (i : Nat) (d : Opt_Spec) :
    Decidable (first_match specs name i d) := by
  unfold first_match
  infer_instance

/-- What `eval` does once the first matching descriptor is known. -/
def eval_found (d : Opt_Spec) (value : Option Str) : Option Error_Type × List Event :=
  if d.arg_policy = Arg_Policy.EXPECT_ARG ∧ value = none then
    (some Error_Type.MISSING_ARG, [])
  else if d.arg_policy = Arg_Policy.NO_ARG ∧ value ≠ none then
    (some Error_Type.UNEXPECTED_ARG, [])
  else
    (none, [Event.action d value])

/-- Whether a callback invocation is a call of the error handler. -/
def Event.is_err : Event → Bool
  | Event.on_err _ => true
  | _ => false

/-- The error handler is not called in `t`. -/
def no_err (t : List Event) : Prop := ∀ ev ∈ t, ev.is_err = false

/-- Whatever follows a call of the error handler in `t` is empty: such a call can only be the
last invocation of `t`. -/
def err_only_last (t : List Event) : Prop :=
  ∀ pre e post, t = pre ++ Event.on_err e :: post → post = []

/-- The outcome of a lambda under abort-on-error: either it called no error handler, or it
returned `end` and its last callback invocation, and only that one, was the error handler. -/
def abort_outcome (end_ : Nat) (r : Nat × List Event) : Prop :=
  no_err r.2 ∨ (r.1 = end_ ∧ ∃ pre e, r.2 = pre ++ [Event.on_err e] ∧ no_err pre)

/-- A string is positional-looking when it is shorter than 2 characters or does not begin
with the dash. -/
def positional_looking (s : Str) : Prop := s.length < 2 ∨ s.head? ≠ some '-'

instance (s : Str) : Decidable (positional_looking s) := by
  unfold positional_looking
  infer_instance

/-- The value offered to `eval` for the token at cursor `p` (lines 194-195 and 222-223): the
next string when there is one and `is_arg` accepts it. -/
def lookahead (argv : List Str) (end_ p : Nat) : Option Str :=
  if decide (p + 1 ≠ end_) && is_arg (token argv (p + 1)) then some (token argv (p + 1)) else none

/-! ## Example data -/

/-- The descriptor `-v` / `--version` of `example/demo.cpp` (line 37).  The four actions of
that file are numbered in registration order. -/
def demo_version : Opt_Spec := ⟨'v', "version".toList, Arg_Policy.NO_ARG, 0⟩

/-- The descriptor `-h` of `example/demo.cpp` (line 39): short form only. -/
def demo_h : Opt_Spec := ⟨'h', [], Arg_Policy.NO_ARG, 1⟩

/-- The descriptor `-c` / `--count` of `example/demo.cpp` (line 46). -/
def demo_count : Opt_Spec := ⟨'c', "count".toList, Arg_Policy.EXPECT_ARG, 2⟩

/-- The descriptor `-a` / `--adjective` of `example/demo.cpp` (line 60). -/
def demo_adjective : Opt_Spec := ⟨'a', "adjective".toList, Arg_Policy.MAYBE_ARG, 3⟩

/-- The registry of `example/demo.cpp` (lines 36-65). -/
def demo_specs : List Opt_Spec := [demo_version, demo_h, demo_count, demo_adjective]

/-- A parser over the registry of `example/demo.cpp` with the given settings. -/
def demo (combi_allowed abort_on_error : Bool) : Parser :=
  ⟨demo_specs, combi_allowed, abort_on_error⟩

/-- An argument vector: the program name followed by the given strings. -/
def cmdline (args : List String) : List Str := "prog".toList :: args.map String.toList

/-- The call `s.find(c, pos)`: position of the first `c` at or after `pos`. -/
def find_from (s : Str) (c : Char) (pos : Nat) : Option Nat :=
  (find (s.drop pos) c).map (· + pos)

/-- The position after the prefix of an option token: 2 when the token begins with two
dashes, 1 otherwise. -/
def base_pos (s : Str) : Nat := if s[1]? = some '-' then 2 else 1

/-- Evaluate and report: the callback invocations of one call of `eval` followed, when `eval`
returned an error, by exactly one call of the error handler carrying that error and the
text `tok`. -/
def eval_report (P : Parser) (tok name : Str) (value : Option Str) : List Event :=
  (eval P name value).2 ++
    match (eval P name value).1 with
    | some e => [Event.on_err ⟨e, tok⟩]
    | none => []

/-- A small registry with a duplicated short name and a long name equal to it: `-a` is
registered twice and the first descriptor has the long name `a`. -/
def dup_specs : List Opt_Spec :=
  [⟨'v', "a".toList, Arg_Policy.NO_ARG, 0⟩, ⟨'a', "all".toList, Arg_Policy.NO_ARG, 1⟩,
    ⟨'a', "all".toList, Arg_Policy.MAYBE_ARG, 2⟩]

/-- Evaluate and report a sequence of names with their values, in order, all errors being
reported with the text `tok`.  With abort-on-error enabled the sequence stops after the first
evaluation that returns an error.  The result tells whether it stopped that way, and the
callback invocations made. -/
def eval_reports (P : Parser) (tok : Str) : List (Str × Option Str) → Bool × List Event
  | [] => (false, [])
  | (name, value) :: rest =>
    if (eval P name value).1.isSome && P.abort_on_error then
      (true, eval_report P tok name value)
    else
      ((eval_reports P tok rest).1,
        eval_report P tok name value ++ (eval_reports P tok rest).2)

/-- The evaluations asked for by a cluster of characters `c1 ... cn` with lookahead value
`la`: every character but the last as a one-character name without value, then the last
character as a one-character name with `la`. -/
def cluster_evals (name : Str) (la : Option Str) : List (Str × Option Str) :=
  (name.dropLast.map fun c => ([c], none)) ++ [(name.drop (name.length - 1), la)]

/-- The registry of Scenario C: `-a` and `-b` take no value, `-c` expects one. -/
def scenario_c_specs : List Opt_Spec :=
  [⟨'a', [], Arg_Policy.NO_ARG, 0⟩, ⟨'b', [], Arg_Policy.NO_ARG, 1⟩,
    ⟨'c', [], Arg_Policy.EXPECT_ARG, 2⟩]

/-! ## The scan with its assertions checked

The functions of the scan once more, with `assert` compiled in: a result of `none` stands for
a failed assertion.  The precondition `argc > 0` of `parse` (line 183) is an obligation of the
caller and is not part of these definitions. -/

/-- The function `Parser::find_spec` with the assertion of line 269. -/
def find_spec_checked (P : Parser) (name : Str) : Option (Option Nat) :=
  if name.isEmpty then none else some (find_spec P name)

/-- The function `Parser::parse_item` with the assertions of lines 290, 296 and 304. -/
def parse_item_checked (P : Parser) (s : Str) : Option Item :=
  if decide (s.length < 2) || at_ s 0 != '-' then
    some Item.Arg_Item
  else if s.length = 2 then
    if at_ s 0 = '-' then
      some (if at_ s 1 = '-' then Item.EOO_Item else Item.Single_Item (substr_from s 1))
    else none
  else
    if decide (2 < s.length) && at_ s 0 == '-' then
      let base_pos : Nat := if at_ s 1 = '-' then 2 else 1
      if decide (base_pos = 1) && P.combi_allowed then
        some (Item.Combi_Item (substr_from s base_pos))
      else if decide (base_pos = 2) || !P.combi_allowed then
        match find s '=' with
        | none => some (Item.Single_Item (substr_from s base_pos))
        | some eq_pos =>
          some (Item.Full_Item (substr s base_pos (size_sub eq_pos base_pos))
            (substr_from s (eq_pos + 1)))
      else none
    else none

/-- The function `Parser::eval` calling `find_spec` with its assertion. -/
def eval_checked (P : Parser) (name : Str) (value : Option Str) :
    Option (Option Error_Type × List Event) :=
  if name.isEmpty then
    some (some Error_Type.BAD_OPT, [])
  else
    match find_spec_checked P name with
    | none => none
    | some none => some (some Error_Type.BAD_OPT, [])
    | some (some it) =>
      match P.specs[it]? with
      | none => some (some Error_Type.BAD_OPT, [])
      | some d =>
        if d.arg_policy = Arg_Policy.EXPECT_ARG ∧ value.isNone then
          some (some Error_Type.MISSING_ARG, [])
        else if d.arg_policy = Arg_Policy.NO_ARG ∧ value.isSome then
          some (some Error_Type.UNEXPECTED_ARG, [])
        else
          some (none, [Event.action d value])

/-- The lambda for `Single_Item` over the checked `eval`. -/
def visit_Single_checked (P : Parser) (argv : List Str) (end_ p : Nat) (name : Str) :
    Option (Nat × List Event) :=
  let next_is_arg : Bool := decide (p + 1 ≠ end_) && is_arg (token argv (p + 1))
  let next : Option Str := if next_is_arg then some (token argv (p + 1)) else none
  match eval_checked P name next with
  | none => none
  | some r =>
    match r.1 with
    | some err_type =>
      if P.abort_on_error then
        some (end_, r.2 ++ [Event.on_err ⟨err_type, token argv p⟩])
      else
        some (p + (if next_is_arg then 2 else 1),
          r.2 ++ [Event.on_err ⟨err_type, token argv p⟩])
    | none => some (p + (if next_is_arg then 2 else 1), r.2)

/-- The `for` loop of the `Combi_Item` lambda with the assertion of line 214: an error
returned for a character before the last is `BAD_OPT` or `MISSING_ARG`. -/
def combi_for_checked (P : Parser) (tok name : Str) : Nat → Nat → Option (Bool × List Event)
  | 0, _ => some (false, [])
  | n + 1, i =>
    match eval_checked P (substr name i 1) none with
    | none => none
    | some r =>
      match r.1 with
      | some err_type =>
        if err_type = Error_Type.BAD_OPT ∨ err_type = Error_Type.MISSING_ARG then
          if P.abort_on_error then
            some (true, r.2 ++ [Event.on_err ⟨err_type, tok⟩])
          else
            match combi_for_checked P tok name n (i + 1) with
            | none => none
            | some rest => some (rest.1, r.2 ++ Event.on_err ⟨err_type, tok⟩ :: rest.2)
        else none
      | none =>
        match combi_for_checked P tok name n (i + 1) with
        | none => none
        | some rest => some (rest.1, r.2 ++ rest.2)

/-- The lambda for `Combi_Item` with the assertion of line 208, `name.length() > 0`. -/
def visit_Combi_checked (P : Parser) (argv : List Str) (end_ p : Nat) (name : Str) :
    Option (Nat × List Event) :=
  if 0 < name.length then
    match combi_for_checked P (token argv p) name (size_sub name.length 1) 0 with
    | none => none
    | some loop =>
      if loop.1 then
        some (end_, loop.2)
      else
        match visit_Single_checked P argv end_ p
            (substr_from name (size_sub name.length 1)) with
        | none => none
        | some last => some (last.1, loop.2 ++ last.2)
  else none

/-- The lambda for `Full_Item` over the checked `eval`. -/
def visit_Full_checked (P : Parser) (argv : List Str) (end_ p : Nat) (name value : Str) :
    Option (Nat × List Event) :=
  match eval_checked P name (some value) with
  | none => none
  | some r =>
    match r.1 with
    | some err_type =>
      if P.abort_on_error then
        some (end_, r.2 ++ [Event.on_err ⟨err_type, token argv p⟩])
      else
        some (p + 1, r.2 ++ [Event.on_err ⟨err_type, token argv p⟩])
    | none => some (p + 1, r.2)

/-- One execution of the body of the option loop over the checked functions. -/
def opt_step_checked (P : Parser) (argv : List Str) (end_ p : Nat) : Option Step :=
  match parse_item_checked P (token argv p) with
  | none => none
  | some (Item.Single_Item name) =>
    (visit_Single_checked P argv end_ p name).map fun r => ⟨r.1, true, r.2⟩
  | some (Item.Combi_Item name) =>
    (visit_Combi_checked P argv end_ p name).map fun r => ⟨r.1, true, r.2⟩
  | some (Item.Full_Item name value) =>
    (visit_Full_checked P argv end_ p name value).map fun r => ⟨r.1, true, r.2⟩
  | some Item.EOO_Item => some ⟨p + 1, false, []⟩
  | some Item.Arg_Item => some ⟨p, false, []⟩

/-- The option loop over the checked loop body. -/
def option_loop_checked (P : Parser) (argv : List Str) (end_ : Nat) :
    Nat → Nat → Bool → Option (Nat × List Event)
  | 0, p, _ => some (p, [])
  | fuel + 1, p, opt_loop =>
    if opt_loop && decide (p < end_) then
      match opt_step_checked P argv end_ p with
      | none => none
      | some s =>
        match option_loop_checked P argv end_ fuel s.p s.opt_loop with
        | none => none
        | some rest => some (rest.1, s.events ++ rest.2)
    else
      some (p, [])

/-- The function `Parser::parse` over the checked option loop: the callback invocations of the
scan, or `none` when an assertion fails on the way. -/
def parse_checked (P : Parser) (argv : List Str) : Option (List Event) :=
  match option_loop_checked P argv argv.length argv.length 1 true with
  | none => none
  | some opts => some (opts.2 ++ (arg_loop argv argv.length argv.length opts.1).2)

/-- A callback invocation without the text carried by an error report: the action with its
descriptor and value, the kind of an error, or the positional string. -/
def Event.erase_text : Event → Event
  | Event.on_err e => Event.on_err ⟨e.type, []⟩
  | ev => ev

/-- The action invocations of a trace, in order: descriptor and value. -/
def actions_of (t : List Event) : List (Opt_Spec × Option Str) :=
  t.filterMap fun ev =>
    match ev with
    | Event.action d v => some (d, v)
    | _ => none

/-- The kinds of the errors reported in a trace, in order. -/
def error_kinds_of (t : List Event) : List Error_Type :=
  t.filterMap fun ev =>
    match ev with
    | Event.on_err e => some e.type
    | _ => none

/-- The strings delivered to the positional handler in a trace, in order. -/
def positionals_of (t : List Event) : List Str :=
  t.filterMap fun ev =>
    match ev with
    | Event.on_arg s => some s
    | _ => none

/-! # Theorems -/

/-! ## Registry lookup -/

theorem find_if_le (pred : Opt_Spec → Bool) (l : List Opt_Spec) : find_if pred l ≤ l.length := by
  induction l with
  | nil => simp [find_if]
  | cons d ds ih =>
    unfold find_if
    split
    · simp
    · simpa using ih

theorem find_if_none (pred : Opt_Spec → Bool) (l : List Opt_Spec)
    (h : find_if pred l = l.length) : ∀ d ∈ l, pred d = false := by
  induction l with
  | nil => simp
  | cons d ds ih =>
    unfold find_if at h
    split at h
    · simp at h
    · rename_i hd
      intro e he
      rcases List.mem_cons.mp he with rfl | he
      · simpa using hd
      · exact ih (by simpa using h) e he

theorem find_if_some (pred : Opt_Spec → Bool) (l : List Opt_Spec)
    (h : find_if pred l ≠ l.length) :
    ∃ d, l[find_if pred l]? = some d ∧ pred d = true ∧
      ∀ e ∈ l.take (find_if pred l), pred e = false := by
  induction l with
  | nil => simp [find_if] at h
  | cons d ds ih =>
    unfold find_if at h ⊢
    split
    · rename_i hd
      exact ⟨d, by simp, hd, by simp⟩
    · rename_i hd
      rw [if_neg hd] at h
      obtain ⟨e, he, hp, hmin⟩ := ih (by simpa using h)
      refine ⟨e, by simpa using he, hp, ?_⟩
      intro x hx
      rw [List.take_succ_cons] at hx
      rcases List.mem_cons.mp hx with rfl | hx
      · simpa using hd
      · exact hmin x hx

theorem find_if_first (pred : Opt_Spec → Bool) (l : List Opt_Spec) (i : Nat) (d : Opt_Spec)
    (hd : l[i]? = some d) (hp : pred d = true)
    (hmin : ∀ e ∈ l.take i, pred e = false) : find_if pred l = i := by
  induction l generalizing i with
  | nil => simp at hd
  | cons x xs ih =>
    unfold find_if
    cases i with
    | zero =>
      simp at hd
      subst hd
      simp [hp]
    | succ i =>
      have hx : pred x = false := hmin x (by simp)
      simp only [hx, Bool.false_eq_true, if_false, Nat.add_right_cancel_iff]
      exact ih i (by simpa using hd) (fun e he => hmin e (by simp [he]))

theorem find_spec_eq (P : Parser) (name : Str) :
    find_spec P name =
      if find_if (name_matches name) P.specs ≠ P.specs.length then
        some (find_if (name_matches name) P.specs) else none := by
  unfold find_spec name_matches
  by_cases h : name.length = 1 <;> simp [h]

theorem find_spec_lt (P : Parser) (name : Str) (it : Nat) (h : find_spec P name = some it) :
    it < P.specs.length := by
  rw [find_spec_eq] at h
  have hle := find_if_le (name_matches name) P.specs
  split at h
  · simp at h; omega
  · simp at h

theorem find_spec_none_iff (P : Parser) (name : Str) :
    find_spec P name = none ↔ ∀ d ∈ P.specs, name_matches name d = false := by
  rw [find_spec_eq]
  constructor
  · intro h
    split at h
    · simp at h
    · rename_i hne
      exact find_if_none _ _ (not_not.mp hne)
  · intro h
    by_cases hne : find_if (name_matches name) P.specs ≠ P.specs.length
    · obtain ⟨d, hd, hp, _⟩ := find_if_some _ _ hne
      have hmem : d ∈ P.specs := List.getElem?_mem hd
      rw [h d hmem] at hp
      simp at hp
    · simp [hne]

theorem find_spec_first (P : Parser) (name : Str) (i : Nat) (d : Opt_Spec)
    (h : first_match P.specs name i d) : find_spec P name = some i := by
  obtain ⟨hd, hp, hmin⟩ := h
  have hi := find_if_first (name_matches name) P.specs i d hd hp hmin
  have hlt : i < P.specs.length := by
    rcases Nat.lt_or_ge i P.specs.length with h | h
    · exact h
    · rw [List.getElem?_eq_none h] at hd
      simp at hd
  rw [find_spec_eq, hi]
  simp
  omega

theorem find_spec_some (P : Parser) (name : Str) (it : Nat) (h : find_spec P name = some it) :
    ∃ d, first_match P.specs name it d := by
  rw [find_spec_eq] at h
  split at h
  · rename_i hne
    obtain ⟨d, hd, hp, hmin⟩ := find_if_some _ _ hne
    simp at h
    subst h
    exact ⟨d, hd, hp, hmin⟩
  · simp at h

/-! ## Evaluation of one name -/

theorem eval_empty (P : Parser) (value : Option Str) :
    eval P [] value = (some Error_Type.BAD_OPT, []) := by
  simp [eval]

theorem eval_no_match (P : Parser) (name : Str) (value : Option Str)
    (h : ∀ d ∈ P.specs, name_matches name d = false) :
    eval P name value = (some Error_Type.BAD_OPT, []) := by
  unfold eval
  split
  · rfl
  · rw [(find_spec_none_iff P name).mpr h]

theorem eval_first_match (P : Parser) (name : Str) (value : Option Str) (i : Nat)
    (d : Opt_Spec) (hne : name ≠ []) (h : first_match P.specs name i d) :
    eval P name value = eval_found d value := by
  unfold eval eval_found
  have hemp : name.isEmpty = false := by
    cases name with
    | nil => exact absurd rfl hne
    | cons c cs => rfl
  rw [hemp, find_spec_first P name i d h]
  simp only [Bool.false_eq_true, if_false, h.1]
  cases value <;> simp

theorem eval_cases (P : Parser) (name : Str) (value : Option Str) :
    eval P name value = (some Error_Type.BAD_OPT, []) ∨
      ∃ i d, name ≠ [] ∧ first_match P.specs name i d ∧ eval P name value = eval_found d value := by
  by_cases hne : name = []
  · left; rw [hne]; exact eval_empty P value
  · cases hf : find_spec P name with
    | none => left; exact eval_no_match P name value ((find_spec_none_iff P name).mp hf)
    | some it =>
      obtain ⟨d, hd⟩ := find_spec_some P name it hf
      right
      exact ⟨it, d, hne, hd, eval_first_match P name value it d hne hd⟩

/-! ## The cursor -/

theorem visit_Single_cursor (P : Parser) (argv : List Str) (end_ p : Nat) (name : Str)
    (hp : p < end_) :
    p < (visit_Single P argv end_ p name).1 ∧ (visit_Single P argv end_ p name).1 ≤ end_ := by
  simp only [visit_Single]
  generalize hb : (decide (p + 1 ≠ end_) && is_arg (token argv (p + 1))) = nia
  have h2 : nia = true → p + 1 ≠ end_ := by
    intro h
    rw [h] at hb
    simp at hb
    exact hb.1
  cases hE : (eval P name (if nia = true then some (token argv (p + 1)) else none)).1 <;>
    cases hA : P.abort_on_error <;> cases nia <;> simp at h2 ⊢ <;> omega

theorem visit_Full_cursor (P : Parser) (argv : List Str) (end_ p : Nat) (name value : Str)
    (hp : p < end_) :
    p < (visit_Full P argv end_ p name value).1 ∧
      (visit_Full P argv end_ p name value).1 ≤ end_ := by
  simp only [visit_Full]
  cases hE : (eval P name (some value)).1 <;> cases hA : P.abort_on_error <;> simp <;> omega

theorem visit_Combi_cursor (P : Parser) (argv : List Str) (end_ p : Nat) (name : Str)
    (hp : p < end_) :
    p < (visit_Combi P argv end_ p name).1 ∧ (visit_Combi P argv end_ p name).1 ≤ end_ := by
  simp only [visit_Combi]
  cases hL : (combi_for P (token argv p) name (size_sub name.length 1) 0).1
  · simpa using visit_Single_cursor P argv end_ p _ hp
  · simp; omega

theorem opt_step_cursor (P : Parser) (argv : List Str) (end_ p : Nat) (hp : p < end_) :
    p ≤ (opt_step P argv end_ p).p ∧ (opt_step P argv end_ p).p ≤ end_ ∧
      ((opt_step P argv end_ p).opt_loop = true → p < (opt_step P argv end_ p).p) := by
  cases hI : parse_item P (token argv p) with
  | Single_Item name =>
    have h := visit_Single_cursor P argv end_ p name hp
    simp only [opt_step, hI]
    omega
  | Combi_Item name =>
    have h := visit_Combi_cursor P argv end_ p name hp
    simp only [opt_step, hI]
    omega
  | Full_Item name value =>
    have h := visit_Full_cursor P argv end_ p name value hp
    simp only [opt_step, hI]
    omega
  | EOO_Item =>
    simp only [opt_step, hI]
    simp
    omega
  | Arg_Item =>
    simp only [opt_step, hI]
    simp
    omega

/-! ## Fuel -/

theorem option_loop_false (P : Parser) (argv : List Str) (end_ fuel p : Nat) :
    option_loop P argv end_ fuel p false = (p, []) := by
  cases fuel <;> simp [option_loop]

theorem option_loop_done (P : Parser) (argv : List Str) (end_ fuel p : Nat) (b : Bool)
    (hp : end_ ≤ p) : option_loop P argv end_ fuel p b = (p, []) := by
  cases fuel with
  | zero => simp [option_loop]
  | succ n =>
    have : ¬ p < end_ := by omega
    simp [option_loop, this]

theorem option_loop_succ (P : Parser) (argv : List Str) (end_ fuel p : Nat) (b : Bool)
    (h : end_ - p ≤ fuel) :
    option_loop P argv end_ (fuel + 1) p b = option_loop P argv end_ fuel p b := by
  induction fuel generalizing p b with
  | zero => rw [option_loop_done P argv end_ 1 p b (by omega), option_loop_done P argv end_ 0 p b (by omega)]
  | succ n ih =>
    cases b with
    | false => simp [option_loop_false]
    | true =>
      by_cases hp : p < end_
      · have hc := opt_step_cursor P argv end_ p hp
        rw [option_loop, option_loop]
        simp only [Bool.true_and, hp, decide_True, if_true]
        cases hb : (opt_step P argv end_ p).opt_loop with
        | false => simp [option_loop_false]
        | true =>
          have hlt := hc.2.2 hb
          rw [ih (opt_step P argv end_ p).p true (by omega)]
      · rw [option_loop_done P argv end_ _ p true (by omega),
          option_loop_done P argv end_ _ p true (by omega)]

/-- Any amount of fuel from `end_ - p` on gives the same run of the option loop. -/
theorem option_loop_fuel (P : Parser) (argv : List Str) (end_ fuel fuel' p : Nat) (b : Bool)
    (h : end_ - p ≤ fuel) (h' : fuel ≤ fuel') :
    option_loop P argv end_ fuel' p b = option_loop P argv end_ fuel p b := by
  induction fuel' with
  | zero =>
    have : fuel = 0 := by omega
    rw [this]
  | succ n ih =>
    rcases Nat.lt_or_ge n fuel with hlt | hge
    · have : fuel = n + 1 := by omega
      rw [this]
    · rw [option_loop_succ P argv end_ n p b (by omega)]
      exact ih hge

theorem token_eq (argv : List Str) (p : Nat) (hp : p < argv.length) :
    token argv p = argv[p] := by
  simp [token, List.getD_eq_getElem?_getD, List.getElem?_eq_getElem hp]

/-- With fuel for at least `argv.length - p` executions the loop over the free-standing
arguments delivers every string from the cursor on and stops at the end. -/
theorem arg_loop_fuel (argv : List Str) (fuel p : Nat) (h : argv.length - p ≤ fuel) :
    arg_loop argv argv.length fuel p =
      (max p argv.length, (argv.drop p).map Event.on_arg) := by
  induction fuel generalizing p with
  | zero =>
    have hp : argv.length ≤ p := by omega
    simp [arg_loop, List.drop_eq_nil_of_le hp, Nat.max_eq_left hp]
  | succ n ih =>
    unfold arg_loop
    by_cases hp : p < argv.length
    · simp only [hp, if_true]
      rw [ih (p + 1) (by omega), List.drop_eq_getElem_cons hp, token_eq argv p hp,
        Nat.max_eq_right (by omega : p + 1 ≤ argv.length),
        Nat.max_eq_right (by omega : p ≤ argv.length)]
      simp only [List.map_cons]
    · have hp' : argv.length ≤ p := by omega
      simp [hp, List.drop_eq_nil_of_le hp', Nat.max_eq_left hp']

/-! ## Unfolding the scan one token at a time -/

theorem option_loop_unfold (P : Parser) (argv : List Str) (end_ fuel p : Nat) (hp : p < end_)
    (hf : end_ - p ≤ fuel) :
    option_loop P argv end_ fuel p true =
      ((option_loop P argv end_ fuel (opt_step P argv end_ p).p
          (opt_step P argv end_ p).opt_loop).1,
        (opt_step P argv end_ p).events ++
          (option_loop P argv end_ fuel (opt_step P argv end_ p).p
            (opt_step P argv end_ p).opt_loop).2) := by
  obtain ⟨n, rfl⟩ : ∃ n, fuel = n + 1 := ⟨fuel - 1, by omega⟩
  have hc := opt_step_cursor P argv end_ p hp
  conv_lhs => rw [option_loop]
  simp only [Bool.true_and, hp, decide_True, if_true]
  cases hb : (opt_step P argv end_ p).opt_loop with
  | false => simp [option_loop_false]
  | true =>
    have hlt := hc.2.2 hb
    rw [option_loop_succ P argv end_ n _ true (by omega)]

/-- Started at or beyond the end, the scan makes no callback invocation. -/
theorem parse_from_end (P : Parser) (argv : List Str) (p : Nat) (hp : argv.length ≤ p) :
    parse_from P argv p = (p, []) := by
  simp only [parse_from]
  rw [option_loop_done P argv _ _ p true hp, arg_loop_fuel argv _ p (by omega)]
  simp [List.drop_eq_nil_of_le hp, Nat.max_eq_left hp]

/-- The scan from cursor `p` is one execution of the option loop's body followed by the scan
from the new cursor, or by the delivery of all remaining strings once option mode is left. -/
theorem parse_from_step (P : Parser) (argv : List Str) (p : Nat) (hp : p < argv.length) :
    parse_from P argv p =
      if (opt_step P argv argv.length p).opt_loop = true then
        ((parse_from P argv (opt_step P argv argv.length p).p).1,
          (opt_step P argv argv.length p).events ++
            (parse_from P argv (opt_step P argv argv.length p).p).2)
      else
        (argv.length,
          (opt_step P argv argv.length p).events ++
            (argv.drop (opt_step P argv argv.length p).p).map Event.on_arg) := by
  have hc := opt_step_cursor P argv argv.length p hp
  simp only [parse_from]
  rw [option_loop_unfold P argv argv.length argv.length p hp (by omega)]
  cases hb : (opt_step P argv argv.length p).opt_loop with
  | false =>
    simp only [option_loop_false, Bool.false_eq_true, if_false, List.append_nil]
    rw [arg_loop_fuel argv _ _ (by omega), Nat.max_eq_right hc.2.1]
  | true => simp

/-! ## Claims about `eval` -/

/-- C1. For every registry, name and optional value, `eval` returns `BAD_OPT` if the name is
empty or no descriptor matches it; otherwise, with `d` the first matching descriptor, it
returns `MISSING_ARG` if `d` is `EXPECT_ARG` and the value is absent, `UNEXPECTED_ARG` if `d`
is `NO_ARG` and the value is present, and no error in every remaining case. -/
theorem eval_error_kind (P : Parser) (name : Str) (value : Option Str) :
    ((name = [] ∨ ∀ d ∈ P.specs, name_matches name d = false) →
        (eval P name value).1 = some Error_Type.BAD_OPT) ∧
    (∀ i d, name ≠ [] → first_match P.specs name i d →
        (eval P name value).1 =
          if d.arg_policy = Arg_Policy.EXPECT_ARG ∧ value = none then
            some Error_Type.MISSING_ARG
          else if d.arg_policy = Arg_Policy.NO_ARG ∧ value ≠ none then
            some Error_Type.UNEXPECTED_ARG
          else none) := by
  constructor
  · rintro (h | h)
    · rw [h, eval_empty]
    · rw [eval_no_match P name value h]
  · intro i d hne hd
    rw [eval_first_match P name value i d hne hd]
    unfold eval_found
    split
    · rfl
    · split <;> rfl

/-- C1 at concrete inputs over the registry of `example/demo.cpp`: an unregistered name and an
empty name give `BAD_OPT`; `count` (`EXPECT_ARG`) without a value gives `MISSING_ARG`; `v`
(`NO_ARG`) with a value gives `UNEXPECTED_ARG`; `a` (`MAYBE_ARG`) gives no error either way. -/
theorem eval_error_kind_witness :
    (eval (demo false false) "unknown".toList none).1 = some Error_Type.BAD_OPT ∧
    (eval (demo false false) [] (some "x".toList)).1 = some Error_Type.BAD_OPT ∧
    (eval (demo false false) "count".toList none).1 = some Error_Type.MISSING_ARG ∧
    (eval (demo false false) "v".toList (some "x".toList)).1 = some Error_Type.UNEXPECTED_ARG ∧
    (eval (demo false false) "a".toList (some "x".toList)).1 = none ∧
    (eval (demo false false) "a".toList none).1 = none :=
  ⟨(eval_error_kind (demo false false) "unknown".toList none).1 (Or.inr (by decide)),
   (eval_error_kind (demo false false) [] (some "x".toList)).1 (Or.inl rfl),
   (eval_error_kind (demo false false) "count".toList none).2 2 demo_count (by decide)
     (by decide),
   (eval_error_kind (demo false false) "v".toList (some "x".toList)).2 0 demo_version
     (by decide) (by decide),
   (eval_error_kind (demo false false) "a".toList (some "x".toList)).2 3 demo_adjective
     (by decide) (by decide),
   (eval_error_kind (demo false false) "a".toList none).2 3 demo_adjective
     (by decide) (by decide)⟩

/-- C2. For every registry, name and optional value, `eval` invokes an action if and only if
it returns no error.  When it returns no error it makes exactly one callback invocation: the
action of the first matching descriptor, with that descriptor and the value unchanged.  When it
returns an error it makes no callback invocation at all. -/
theorem eval_action_iff_no_error (P : Parser) (name : Str) (value : Option Str) :
    ((∃ d v, Event.action d v ∈ (eval P name value).2) ↔ (eval P name value).1 = none) ∧
    ((eval P name value).1 = none →
        ∃ i d, first_match P.specs name i d ∧
          (eval P name value).2 = [Event.action d value]) ∧
    (∀ e, (eval P name value).1 = some e → (eval P name value).2 = []) := by
  rcases eval_cases P name value with h | ⟨i, d, _, hd, h⟩
  · rw [h]
    simp
  · rw [h]
    unfold eval_found
    split
    · simp
    · split
      · simp
      · exact ⟨⟨fun _ => rfl, fun _ => ⟨d, value, by simp⟩⟩, fun _ => ⟨i, d, hd, rfl⟩,
          fun e he => by simp at he⟩

/-- C2 at concrete inputs over the registry of `example/demo.cpp`: `a` with a value returns no
error, so exactly the action of its first matching descriptor is invoked, with that value; `v`
(`NO_ARG`) with a value returns `UNEXPECTED_ARG`, so nothing is invoked. -/
theorem eval_action_iff_no_error_witness :
    (∃ i d, first_match (demo false false).specs "a".toList i d ∧
      (eval (demo false false) "a".toList (some "x".toList)).2 =
        [Event.action d (some "x".toList)]) ∧
    (eval (demo false false) "v".toList (some "x".toList)).2 = [] :=
  ⟨(eval_action_iff_no_error (demo false false) "a".toList (some "x".toList)).2.1 (by decide),
   (eval_action_iff_no_error (demo false false) "v".toList (some "x".toList)).2.2
     Error_Type.UNEXPECTED_ARG (by decide)⟩

/-! ## Claims about `parse_item` -/

theorem at_zero_eq_dash (s : Str) : at_ s 0 = '-' ↔ s.head? = some '-' := by
  cases s with
  | nil => simp [at_]
  | cons c cs => simp [at_]

theorem parse_item_arg_iff (P : Parser) (s : Str) :
    parse_item P s = Item.Arg_Item ↔ (s.length < 2 ∨ s.head? ≠ some '-') := by
  have hd : s.head? ≠ some '-' ↔ ¬ at_ s 0 = '-' := not_congr (at_zero_eq_dash s).symm
  rw [hd]
  unfold parse_item
  by_cases h : s.length < 2 ∨ ¬ at_ s 0 = '-'
  · have hc : (decide (s.length < 2) || at_ s 0 != '-') = true := by
      rcases h with h | h <;> simp [h]
    simp only [hc, if_true, true_iff]
    exact h
  · have hc : (decide (s.length < 2) || at_ s 0 != '-') = false := by
      push_neg at h
      simp [h.2]
      omega
    simp only [hc, Bool.false_eq_true, if_false, h, iff_false]
    by_cases h2 : s.length = 2 <;> by_cases hb : at_ s 1 = '-' <;>
      cases hca : P.combi_allowed <;> cases hf : find s '=' <;> simp [h2, hb]

/-- C8. For every token `s` and either combining mode, `parse_item s` is `Arg_Item`
(Positional) if and only if `s` has length below 2 or its first character is not the dash.  In
particular the empty string, every one-character string and the lone dash are Positional, and no
token of length at least 2 beginning with a dash is. -/
theorem parse_item_positional (P : Parser) (s : Str) :
    (parse_item P s = Item.Arg_Item ↔ (s.length < 2 ∨ s.head? ≠ some '-')) ∧
    parse_item P [] = Item.Arg_Item ∧
    (∀ c, parse_item P [c] = Item.Arg_Item) ∧
    parse_item P ['-'] = Item.Arg_Item ∧
    (2 ≤ s.length → s.head? = some '-' → parse_item P s ≠ Item.Arg_Item) := by
  refine ⟨parse_item_arg_iff P s, ?_, ?_, ?_, ?_⟩
  · exact (parse_item_arg_iff P []).mpr (Or.inl (by simp))
  · intro c
    exact (parse_item_arg_iff P [c]).mpr (Or.inl (by simp))
  · exact (parse_item_arg_iff P ['-']).mpr (Or.inl (by simp))
  · intro hl hh hp
    rcases (parse_item_arg_iff P s).mp hp with h | h
    · omega
    · exact h hh

/-- C8 at concrete tokens: with combining on or off, `--count` and `-v` are not Positional,
while `Bob` is. -/
theorem parse_item_positional_witness :
    parse_item (demo true false) "--count".toList ≠ Item.Arg_Item ∧
    parse_item (demo false false) "-v".toList ≠ Item.Arg_Item ∧
    parse_item (demo false false) "Bob".toList = Item.Arg_Item :=
  ⟨(parse_item_positional (demo true false) "--count".toList).2.2.2.2 (by decide) (by decide),
   (parse_item_positional (demo false false) "-v".toList).2.2.2.2 (by decide) (by decide),
   (parse_item_positional (demo false false) "Bob".toList).1.mpr (Or.inr (by decide))⟩

/-- C9. For every two-character token made of a dash and a character `c`, in either combining
mode, `parse_item` returns `EOO_Item` if `c` is the dash and `Single_Item` with the
one-character name `c` otherwise; and `parse_item` returns `EOO_Item` for no token other than
exactly two dashes (three dashes, or two dashes and an equals sign, are not end markers). -/
theorem parse_item_two_chars (P : Parser) (c : Char) (s : Str) :
    parse_item P ['-', c] = (if c = '-' then Item.EOO_Item else Item.Single_Item [c]) ∧
    (parse_item P s = Item.EOO_Item ↔ s = ['-', '-']) ∧
    parse_item P ['-', '-', '-'] ≠ Item.EOO_Item ∧
    parse_item P ['-', '-', '='] ≠ Item.EOO_Item := by
  have key : ∀ t : Str, parse_item P t = Item.EOO_Item ↔ t = ['-', '-'] := by
    intro t
    constructor
    · intro h
      by_cases h1 : (decide (t.length < 2) || at_ t 0 != '-') = true
      · simp [parse_item, h1] at h
      · by_cases h2 : t.length = 2
        · match t, h2 with
          | [a, b], _ =>
            simp [at_] at h1
            by_cases hb : b = '-'
            · simp [h1, hb]
            · simp [parse_item, at_, h1, hb] at h
        · exfalso
          by_cases hb : at_ t 1 = '-' <;> cases hca : P.combi_allowed <;>
            cases hf : find t '=' <;> simp [parse_item, h1, h2, hb, hca, hf] at h
    · rintro rfl
      simp [parse_item, at_]
  refine ⟨?_, key s, ?_, ?_⟩
  · by_cases hc : c = '-' <;> simp [parse_item, at_, substr_from, hc]
  · intro h
    have := (key _).mp h
    simp at this
  · intro h
    have := (key _).mp h
    simp at this

/-- C10. With combining enabled, every token longer than 2 whose first character is a dash and
whose second is not is classified `Combi_Item` with the whole remainder after the dash as its
name, whatever it contains; and for a token with a single leading dash `parse_item` never
returns `Full_Item`, nor a `Single_Item` whose name has more than one character. -/
theorem parse_item_combi (P : Parser) (hc : P.combi_allowed = true) (c : Char) (rest : Str) :
    (c ≠ '-' → rest ≠ [] →
        parse_item P ('-' :: c :: rest) = Item.Combi_Item (c :: rest)) ∧
    (∀ t : Str, t.head? ≠ some '-' →
        (∀ n v, parse_item P ('-' :: t) ≠ Item.Full_Item n v) ∧
        (∀ n, parse_item P ('-' :: t) = Item.Single_Item n → n.length = 1)) := by
  have comb : ∀ (a : Char) (r : Str), a ≠ '-' → r ≠ [] →
      parse_item P ('-' :: a :: r) = Item.Combi_Item (a :: r) := by
    intro a r ha hr
    obtain ⟨b, r', rfl⟩ := List.exists_cons_of_ne_nil hr
    simp [parse_item, at_, substr_from, ha, hc]
  refine ⟨comb c rest, ?_⟩
  intro t ht
  match t, ht with
  | [], _ => simp [parse_item, at_]
  | [a], ha =>
    have ha' : a ≠ '-' := by simpa using ha
    simp [parse_item, at_, substr_from, ha']
  | a :: b :: r, ha =>
    have ha' : a ≠ '-' := by simpa using ha
    rw [comb a (b :: r) ha' (by simp)]
    simp

/-- C10 at the token of the specification: with combining enabled `-count=3` is the cluster
`count=3`, not an option with an inline value. -/
theorem parse_item_combi_witness :
    parse_item (demo true false) "-count=3".toList = Item.Combi_Item "count=3".toList :=
  (parse_item_combi (demo true false) rfl 'c' "ount=3".toList).1 (by decide) (by decide)

/-! ## Error-handler calls in a trace -/

theorem no_err_nil : no_err [] := by
  intro ev h
  simp at h

theorem no_err_append (a b : List Event) (ha : no_err a) (hb : no_err b) : no_err (a ++ b) := by
  intro ev h
  rcases List.mem_append.mp h with h | h
  · exact ha ev h
  · exact hb ev h

theorem no_err_map_on_arg (l : List Str) : no_err (l.map Event.on_arg) := by
  intro ev h
  obtain ⟨s, _, rfl⟩ := List.mem_map.mp h
  rfl

theorem err_only_last_of_no_err (t : List Event) (h : no_err t) : err_only_last t := by
  intro pre e post ht
  have := h (Event.on_err e) (by rw [ht]; simp)
  simp [Event.is_err] at this

theorem err_only_last_snoc (pre : List Event) (e : Error) (h : no_err pre) :
    err_only_last (pre ++ [Event.on_err e]) := by
  intro a x post ht
  induction pre generalizing a with
  | nil =>
    cases a with
    | nil =>
      simp at ht
      exact ht.2
    | cons y ys => simp at ht
  | cons y ys ih =>
    cases a with
    | nil =>
      simp at ht
      have := h y (by simp)
      rw [ht.1] at this
      simp [Event.is_err] at this
    | cons z zs =>
      simp at ht
      exact ih (fun ev hev => h ev (by simp [hev])) zs (by simpa using ht.2)

theorem err_only_last_append (a b : List Event) (ha : no_err a) (hb : err_only_last b) :
    err_only_last (a ++ b) := by
  induction a with
  | nil => simpa using hb
  | cons y ys ih =>
    intro pre e post ht
    cases pre with
    | nil =>
      simp at ht
      have := ha y (by simp)
      rw [ht.1] at this
      simp [Event.is_err] at this
    | cons z zs =>
      simp at ht
      exact ih (fun ev hev => ha ev (by simp [hev])) zs e post (by simpa using ht.2)

theorem err_only_last_count (t : List Event) (h : err_only_last t) :
    (t.filter Event.is_err).length ≤ 1 := by
  induction t with
  | nil => simp
  | cons x xs ih =>
    have hxs : err_only_last xs := by
      intro pre e post ht
      exact h (x :: pre) e post (by simp [ht])
    cases x with
    | on_err e =>
      have : xs = [] := h [] e xs rfl
      subst this
      simp [Event.is_err]
    | action d v => simpa [Event.is_err] using ih hxs
    | on_arg s => simpa [Event.is_err] using ih hxs

theorem eval_no_err (P : Parser) (name : Str) (value : Option Str) :
    no_err (eval P name value).2 := by
  rcases eval_cases P name value with h | ⟨i, d, _, _, h⟩
  · rw [h]; exact no_err_nil
  · rw [h]
    unfold eval_found
    split
    · exact no_err_nil
    · split
      · exact no_err_nil
      · intro ev hev
        simp at hev
        subst hev
        rfl

/-! ## One step with abort-on-error enabled -/

theorem visit_Single_abort (P : Parser) (argv : List Str) (end_ p : Nat) (name : Str)
    (ha : P.abort_on_error = true) : abort_outcome end_ (visit_Single P argv end_ p name) := by
  simp only [visit_Single, ha, if_true]
  generalize (decide (p + 1 ≠ end_) && is_arg (token argv (p + 1))) = nia
  generalize hv : (if nia = true then some (token argv (p + 1)) else none) = next
  have hn := eval_no_err P name next
  cases hE : (eval P name next).1 with
  | none => exact Or.inl hn
  | some e => exact Or.inr ⟨rfl, _, _, rfl, hn⟩

theorem visit_Full_abort (P : Parser) (argv : List Str) (end_ p : Nat) (name value : Str)
    (ha : P.abort_on_error = true) :
    abort_outcome end_ (visit_Full P argv end_ p name value) := by
  simp only [visit_Full, ha, if_true]
  have hn := eval_no_err P name (some value)
  cases hE : (eval P name (some value)).1 with
  | none => exact Or.inl hn
  | some e => exact Or.inr ⟨rfl, _, _, rfl, hn⟩

theorem combi_for_abort (P : Parser) (tok name : Str) (n i : Nat)
    (ha : P.abort_on_error = true) :
    ((combi_for P tok name n i).1 = false → no_err (combi_for P tok name n i).2) ∧
    ((combi_for P tok name n i).1 = true →
      ∃ pre e, (combi_for P tok name n i).2 = pre ++ [Event.on_err e] ∧ no_err pre) := by
  induction n generalizing i with
  | zero => simp [combi_for, no_err_nil]
  | succ n ih =>
    have hn := eval_no_err P (substr name i 1) none
    simp only [combi_for, ha, if_true]
    cases hE : (eval P (substr name i 1) none).1 with
    | some e =>
      simp only [Bool.true_eq_false, false_implies, forall_true_left, true_and]
      exact ⟨_, _, rfl, hn⟩
    | none =>
      simp only []
      constructor
      · intro h
        exact no_err_append _ _ hn ((ih (i + 1)).1 h)
      · intro h
        obtain ⟨pre, e, he, hp⟩ := (ih (i + 1)).2 h
        exact ⟨(eval P (substr name i 1) none).2 ++ pre, e, by rw [he, List.append_assoc],
          no_err_append _ _ hn hp⟩

theorem visit_Combi_abort (P : Parser) (argv : List Str) (end_ p : Nat) (name : Str)
    (ha : P.abort_on_error = true) : abort_outcome end_ (visit_Combi P argv end_ p name) := by
  have hc := combi_for_abort P (token argv p) name (size_sub name.length 1) 0 ha
  simp only [visit_Combi]
  cases hL : (combi_for P (token argv p) name (size_sub name.length 1) 0).1 with
  | true =>
    simp only [if_true]
    exact Or.inr ⟨rfl, hc.2 hL⟩
  | false =>
    simp only [Bool.false_eq_true, if_false]
    rcases visit_Single_abort P argv end_ p (substr_from name (size_sub name.length 1)) ha with h | h
    · exact Or.inl (no_err_append _ _ (hc.1 hL) h)
    · obtain ⟨h1, pre, e, he, hp⟩ := h
      exact Or.inr ⟨h1, _ ++ pre, e, by simp only [he, List.append_assoc],
        no_err_append _ _ (hc.1 hL) hp⟩

theorem opt_step_abort (P : Parser) (argv : List Str) (end_ p : Nat)
    (ha : P.abort_on_error = true) :
    abort_outcome end_ ((opt_step P argv end_ p).p, (opt_step P argv end_ p).events) := by
  cases hI : parse_item P (token argv p) with
  | Single_Item name =>
    simp only [opt_step, hI]
    exact visit_Single_abort P argv end_ p name ha
  | Combi_Item name =>
    simp only [opt_step, hI]
    exact visit_Combi_abort P argv end_ p name ha
  | Full_Item name value =>
    simp only [opt_step, hI]
    exact visit_Full_abort P argv end_ p name value ha
  | EOO_Item =>
    simp only [opt_step, hI]
    exact Or.inl no_err_nil
  | Arg_Item =>
    simp only [opt_step, hI]
    exact Or.inl no_err_nil

theorem opt_step_exit_events (P : Parser) (argv : List Str) (end_ p : Nat)
    (h : (opt_step P argv end_ p).opt_loop = false) : (opt_step P argv end_ p).events = [] := by
  cases hI : parse_item P (token argv p) <;> simp [opt_step, hI] at h ⊢

theorem parse_from_abort (P : Parser) (argv : List Str) (ha : P.abort_on_error = true)
    (n p : Nat) (hn : argv.length - p ≤ n) : err_only_last (parse_from P argv p).2 := by
  induction n generalizing p with
  | zero =>
    rw [parse_from_end P argv p (by omega)]
    exact err_only_last_of_no_err _ no_err_nil
  | succ n ih =>
    rcases Nat.lt_or_ge p argv.length with hp | hp
    · have hc := opt_step_cursor P argv argv.length p hp
      rw [parse_from_step P argv p hp]
      cases hb : (opt_step P argv argv.length p).opt_loop with
      | false =>
        simp only [Bool.false_eq_true, if_false]
        rw [opt_step_exit_events P argv _ p hb]
        exact err_only_last_of_no_err _ (no_err_append _ _ no_err_nil (no_err_map_on_arg _))
      | true =>
        simp only [if_true]
        rcases opt_step_abort P argv argv.length p ha with h | ⟨h1, pre, e, he, hpre⟩
        · exact err_only_last_append _ _ h (ih _ (by have := hc.2.2 hb; omega))
        · simp only at h1 he
          rw [h1, parse_from_end P argv _ (le_refl _), he, List.append_nil]
          exact err_only_last_snoc pre e hpre
    · rw [parse_from_end P argv p hp]
      exact err_only_last_of_no_err _ no_err_nil

/-! ## Steps of the option loop -/

theorem visit_Single_eq (P : Parser) (argv : List Str) (end_ p : Nat) (name : Str) :
    visit_Single P argv end_ p name =
      match (eval P name (lookahead argv end_ p)).1 with
      | some e =>
        (if P.abort_on_error = true then end_
          else p + (if (lookahead argv end_ p).isSome = true then 2 else 1),
          (eval P name (lookahead argv end_ p)).2 ++ [Event.on_err ⟨e, token argv p⟩])
      | none =>
        (p + (if (lookahead argv end_ p).isSome = true then 2 else 1),
          (eval P name (lookahead argv end_ p)).2) := by
  simp only [visit_Single, lookahead]
  by_cases hn : (decide (p + 1 ≠ end_) && is_arg (token argv (p + 1))) = true
  · simp only [hn, if_true, Option.isSome_some]
    cases hE : (eval P name (some (token argv (p + 1)))).1 <;>
      cases ha : P.abort_on_error <;> simp
  · simp only [hn, if_false, Option.isSome_none, Bool.false_eq_true]
    cases hE : (eval P name none).1 <;> cases ha : P.abort_on_error <;> simp

theorem opt_step_Single (P : Parser) (argv : List Str) (end_ p : Nat) (name : Str)
    (h : parse_item P (token argv p) = Item.Single_Item name) :
    opt_step P argv end_ p =
      ⟨(visit_Single P argv end_ p name).1, true, (visit_Single P argv end_ p name).2⟩ := by
  simp only [opt_step, h]

theorem parse_from_Single (P : Parser) (argv : List Str) (p : Nat) (name : Str)
    (hp : p < argv.length) (h : parse_item P (token argv p) = Item.Single_Item name) :
    (parse_from P argv p).2 =
      (visit_Single P argv argv.length p name).2 ++
        (parse_from P argv (visit_Single P argv argv.length p name).1).2 := by
  rw [parse_from_step P argv p hp, opt_step_Single P argv _ p name h]
  simp

/-- C3. With abort-on-error enabled, for every registry, combining mode and argument list,
`parse` calls the error handler at most once, and nothing follows that call: it is the last
callback invocation of the scan, so no action, no further error and no positional-handler
call comes after it and the strings not yet visited are dropped.  Scenario B: when no
descriptor has the long name `unknown`, the input `--unknown`, `foo` produces exactly one
callback invocation, the error `BAD_OPT` with the text `--unknown`. -/
theorem abort_error_is_last (P : Parser) (argv : List Str) (h : P.abort_on_error = true) :
    ((parse P argv).filter Event.is_err).length ≤ 1 ∧
    (∀ pre e post, parse P argv = pre ++ Event.on_err e :: post → post = []) ∧
    ((∀ d ∈ P.specs, d.long_name ≠ "unknown".toList) →
      parse P (cmdline ["--unknown", "foo"]) =
        [Event.on_err ⟨Error_Type.BAD_OPT, "--unknown".toList⟩]) := by
  have hl : err_only_last (parse P argv) := parse_from_abort P argv h argv.length 1 (by omega)
  refine ⟨err_only_last_count _ hl, hl, ?_⟩
  intro hu
  have hI : parse_item P (token (cmdline ["--unknown", "foo"]) 1) =
      Item.Single_Item "unknown".toList := by
    obtain ⟨specs, c, a⟩ := P
    cases c <;> rfl
  have hE : ∀ v, eval P "unknown".toList v = (some Error_Type.BAD_OPT, []) := by
    intro v
    apply eval_no_match
    intro d hd
    have := hu d hd
    simp [name_matches]
    exact this
  rw [parse, parse_from_Single P _ 1 _ (by decide) hI, visit_Single_eq, hE]
  simp only [h, if_true, List.nil_append]
  rw [parse_from_end P _ _ (le_refl _)]
  rfl

/-- C3 at concrete inputs over the registry of `example/demo.cpp` with abort-on-error
enabled: a run with two faulty options has at most one error-handler call, and Scenario B. -/
theorem abort_error_is_last_witness :
    ((parse (demo true true) (cmdline ["-vx", "-c", "Bob"])).filter Event.is_err).length ≤ 1 ∧
    parse (demo false true) (cmdline ["--unknown", "foo"]) =
      [Event.on_err ⟨Error_Type.BAD_OPT, "--unknown".toList⟩] :=
  ⟨(abort_error_is_last (demo true true) (cmdline ["-vx", "-c", "Bob"]) rfl).1,
   (abort_error_is_last (demo false true) [] rfl).2.2 (by decide)⟩


/-! ## Steps on a `Single_Item` -/

theorem parse_item_Single_ne_nil (P : Parser) (s name : Str)
    (h : parse_item P s = Item.Single_Item name) : name ≠ [] := by
  by_cases h1 : (decide (s.length < 2) || at_ s 0 != '-') = true
  · simp [parse_item, h1] at h
  · have hl : ¬ s.length < 2 := by
      intro hc
      simp [hc] at h1
    unfold parse_item at h
    rw [if_neg h1] at h
    by_cases h2 : s.length = 2
    · rw [if_pos h2] at h
      by_cases hb : at_ s 1 = '-'
      · rw [if_pos hb] at h
        cases h
      · rw [if_neg hb] at h
        rw [← Item.Single_Item.inj h]
        simp only [substr_from, ne_eq, List.drop_eq_nil_iff]
        omega
    · rw [if_neg h2] at h
      by_cases hb : at_ s 1 = '-' <;> cases hca : P.combi_allowed <;>
        cases hf : find s '=' <;>
        simp only [hb, hca, hf, if_true, if_false, decide_True, decide_False, Bool.and_true,
          Bool.and_false, Bool.false_eq_true, Bool.true_and, Bool.false_and, OfNat.ofNat_ne_one,
          reduceCtorEq, Item.Single_Item.injEq, substr_from] at h <;>
        (rw [← h]; simp only [ne_eq, List.drop_eq_nil_iff]; omega)

theorem lookahead_some (argv : List Str) (p : Nat) (hp : p + 1 < argv.length)
    (h : is_arg (token argv (p + 1)) = true) :
    lookahead argv argv.length p = some (token argv (p + 1)) := by
  have : p + 1 ≠ argv.length := by omega
  simp [lookahead, this, h]

theorem lookahead_none (argv : List Str) (end_ p : Nat)
    (h : is_arg (token argv (p + 1)) = false) : lookahead argv end_ p = none := by
  simp [lookahead, h]

theorem is_arg_false_iff (s : Str) : is_arg s = false ↔ 2 ≤ s.length ∧ s.head? = some '-' := by
  rw [← at_zero_eq_dash]
  simp [is_arg]

theorem is_arg_of_positional_looking (s : Str) (h : positional_looking s) :
    is_arg s = true := by
  cases hs : is_arg s with
  | true => rfl
  | false =>
    obtain ⟨h1, h2⟩ := (is_arg_false_iff s).mp hs
    rcases h with h | h
    · omega
    · exact absurd h2 h

/-- One execution of the loop body on a `Single_Item` whose name has `d` as first matching
descriptor. -/
theorem opt_step_Single_found (P : Parser) (argv : List Str) (end_ p : Nat) (name : Str)
    (i : Nat) (d : Opt_Spec) (hI : parse_item P (token argv p) = Item.Single_Item name)
    (hfm : first_match P.specs name i d) :
    opt_step P argv end_ p =
      match (eval_found d (lookahead argv end_ p)).1 with
      | some e =>
        ⟨if P.abort_on_error = true then end_
          else p + (if (lookahead argv end_ p).isSome = true then 2 else 1), true,
          (eval_found d (lookahead argv end_ p)).2 ++ [Event.on_err ⟨e, token argv p⟩]⟩
      | none =>
        ⟨p + (if (lookahead argv end_ p).isSome = true then 2 else 1), true,
          (eval_found d (lookahead argv end_ p)).2⟩ := by
  have hne := parse_item_Single_ne_nil P _ name hI
  rw [opt_step_Single P argv end_ p name hI, visit_Single_eq,
    eval_first_match P name _ i d hne hfm]
  cases (eval_found d (lookahead argv end_ p)).1 <;> rfl

/-- The scan from a cursor at which the loop body stays in option mode. -/
theorem parse_from_continue (P : Parser) (argv : List Str) (p q : Nat) (evs : List Event)
    (hp : p < argv.length) (h : opt_step P argv argv.length p = ⟨q, true, evs⟩) :
    (parse_from P argv p).2 = evs ++ (parse_from P argv q).2 := by
  rw [parse_from_step P argv p hp, h]
  simp

/-- The scan from a cursor at which the loop body leaves option mode. -/
theorem parse_from_exit (P : Parser) (argv : List Str) (p q : Nat) (evs : List Event)
    (hp : p < argv.length) (h : opt_step P argv argv.length p = ⟨q, false, evs⟩) :
    (parse_from P argv p).2 = evs ++ (argv.drop q).map Event.on_arg := by
  rw [parse_from_step P argv p hp, h]
  simp


/-! ## Claims about the scan -/

/-- C4. For every registry, flag setting and argument list, once the option loop has its
cursor `p` on the end marker (two dashes) or on a token classified `Arg_Item`, the rest of
the scan consists of exactly one positional-handler call per remaining string, in order and
verbatim: the strings after the end marker, or the `Arg_Item` token and those after it.  No
action or error callback follows, whatever the remaining strings look like, and the end marker
itself is not delivered.  Scenario D: with `-x` registered `NO_ARG`, the input `-x`, `--`,
`-y` invokes the action of `-x` without a value and then delivers `-y` as a positional. -/
theorem positional_mode (P : Parser) (argv : List Str) (p : Nat) (hp : p < argv.length) :
    (token argv p = ['-', '-'] →
      (parse_from P argv p).2 = (argv.drop (p + 1)).map Event.on_arg) ∧
    (parse_item P (token argv p) = Item.Arg_Item →
      (parse_from P argv p).2 = (argv.drop p).map Event.on_arg) ∧
    (∀ i d, first_match P.specs ['x'] i d → d.arg_policy = Arg_Policy.NO_ARG →
      parse P (cmdline ["-x", "--", "-y"]) =
        [Event.action d none, Event.on_arg "-y".toList]) := by
  have eoo : ∀ (av : List Str) (q : Nat), q < av.length → token av q = ['-', '-'] →
      (parse_from P av q).2 = (av.drop (q + 1)).map Event.on_arg := by
    intro av q hq ht
    have hs : opt_step P av av.length q = ⟨q + 1, false, []⟩ := by
      simp [opt_step, ht, parse_item, at_]
    rw [parse_from_exit P av q _ _ hq hs]
    rfl
  refine ⟨eoo argv p hp, ?_, ?_⟩
  · intro ht
    have hs : opt_step P argv argv.length p = ⟨p, false, []⟩ := by
      simp only [opt_step, ht]
    rw [parse_from_exit P argv p _ _ hp hs]
    rfl
  · intro i d hfm hpol
    have hI : parse_item P (token (cmdline ["-x", "--", "-y"]) 1) = Item.Single_Item ['x'] := by
      obtain ⟨specs, c, a⟩ := P
      cases c <;> rfl
    have hla : lookahead (cmdline ["-x", "--", "-y"]) (cmdline ["-x", "--", "-y"]).length 1
        = none := lookahead_none _ _ 1 (by decide)
    have hs := opt_step_Single_found P (cmdline ["-x", "--", "-y"])
      (cmdline ["-x", "--", "-y"]).length 1 ['x'] i d hI hfm
    rw [hla] at hs
    simp only [eval_found, hpol, ne_eq, not_true_eq_false, and_false, if_false, and_true,
      reduceCtorEq, Option.isSome_none, Bool.false_eq_true] at hs
    rw [parse, parse_from_continue P _ 1 _ _ (by decide) hs,
      eoo (cmdline ["-x", "--", "-y"]) 2 (by decide) (by decide)]
    rfl

/-- C4 at concrete inputs over the registry of `example/demo.cpp`: after the end marker the
unregistered `-y` and the registered `--count` are delivered as positionals; a first
positional `Bob` sends the following `-v` to the positional handler too. -/
theorem positional_mode_witness :
    (parse_from (demo false false) (cmdline ["-v", "--", "-y", "--count"]) 2).2 =
      [Event.on_arg "-y".toList, Event.on_arg "--count".toList] ∧
    (parse_from (demo false false) (cmdline ["Bob", "-v"]) 1).2 =
      [Event.on_arg "Bob".toList, Event.on_arg "-v".toList] :=
  ⟨(positional_mode (demo false false) (cmdline ["-v", "--", "-y", "--count"]) 2
      (by decide)).1 (by decide),
   (positional_mode (demo false false) (cmdline ["Bob", "-v"]) 1 (by decide)).2.1 (by decide)⟩


/-- C5, as the code has it.  When a `Single_Item` names an option whose first matching
descriptor is `NO_ARG` and the next string exists and is positional-looking, the lookahead is
offered to `eval`, which invokes no action and returns `UNEXPECTED_ARG`; the error handler is
called once with that error and the text of the option token.  With abort-on-error disabled
the cursor then advances by 2, so the scan continues after the next string, which is skipped;
with abort-on-error enabled the scan ends.  An action that receives a value always belongs
to a descriptor that is not `NO_ARG`. -/
theorem no_arg_lookahead (P : Parser) (argv : List Str) (p : Nat) (name : Str) (i : Nat)
    (d : Opt_Spec) (hp : p + 1 < argv.length)
    (hI : parse_item P (token argv p) = Item.Single_Item name)
    (hfm : first_match P.specs name i d) (hpol : d.arg_policy = Arg_Policy.NO_ARG)
    (hnext : positional_looking (token argv (p + 1))) :
    opt_step P argv argv.length p =
      ⟨if P.abort_on_error = true then argv.length else p + 2, true,
        [Event.on_err ⟨Error_Type.UNEXPECTED_ARG, token argv p⟩]⟩ ∧
    (parse_from P argv p).2 =
      Event.on_err ⟨Error_Type.UNEXPECTED_ARG, token argv p⟩ ::
        (if P.abort_on_error = true then [] else (parse_from P argv (p + 2)).2) ∧
    (∀ nm v d' v', Event.action d' (some v') ∈ (eval P nm v).2 →
      d'.arg_policy ≠ Arg_Policy.NO_ARG) := by
  have hs := opt_step_Single_found P argv argv.length p name i d hI hfm
  rw [lookahead_some argv p hp (is_arg_of_positional_looking _ hnext)] at hs
  simp only [eval_found, hpol, reduceCtorEq, false_and, if_false, ne_eq, not_false_eq_true,
    and_self, if_true, Option.isSome_some, List.nil_append] at hs
  refine ⟨hs, ?_, ?_⟩
  · rw [parse_from_continue P argv p _ _ (by omega) hs]
    by_cases ha : P.abort_on_error = true
    · simp only [ha, if_true]
      rw [parse_from_end P argv _ (le_refl _)]
      rfl
    · simp only [ha, if_false]
      rfl
  · intro nm v d' v' hmem
    rcases eval_cases P nm v with h | ⟨j, e, _, _, h⟩
    · rw [h] at hmem
      simp at hmem
    · rw [h] at hmem
      unfold eval_found at hmem
      split at hmem
      · simp at hmem
      · rename_i h1
        split at hmem
        · simp at hmem
        · rename_i h2
          simp only [List.mem_singleton, Event.action.injEq] at hmem
          obtain ⟨rfl, rfl⟩ := hmem
          intro hno
          exact h2 ⟨hno, by simp⟩

/-- C5 at a concrete input over the registry of `example/demo.cpp`, abort-on-error disabled:
`-v` followed by `Bob` and `Al` reports `UNEXPECTED_ARG` for `-v` and resumes at `Al`. -/
theorem no_arg_lookahead_witness :
    (parse_from (demo false false) (cmdline ["-v", "Bob", "Al"]) 1).2 =
      Event.on_err ⟨Error_Type.UNEXPECTED_ARG, "-v".toList⟩ ::
        (parse_from (demo false false) (cmdline ["-v", "Bob", "Al"]) 3).2 :=
  (no_arg_lookahead (demo false false) (cmdline ["-v", "Bob", "Al"]) 1 "v".toList 0
    demo_version (by decide) (by decide) (by decide) (by decide) (by decide)).2.1

/-- C5 as stated fails.  Over the registry of `example/demo.cpp`, abort-on-error disabled,
`-v` is a `Single_Item` naming a `NO_ARG` option and `Bob` is positional-looking; yet the
loop body moves the cursor from 1 to 3, not to 2, and `Bob` is never delivered to the
positional handler: the whole scan only reports `UNEXPECTED_ARG` for `-v`. -/
theorem no_arg_lookahead_counterexample :
    parse_item (demo false false) "-v".toList = Item.Single_Item "v".toList ∧
    first_match demo_specs "v".toList 0 demo_version ∧
    demo_version.arg_policy = Arg_Policy.NO_ARG ∧
    positional_looking "Bob".toList ∧
    (opt_step (demo false false) (cmdline ["-v", "Bob"]) 3 1).p = 3 ∧
    Event.on_arg "Bob".toList ∉ parse (demo false false) (cmdline ["-v", "Bob"]) ∧
    parse (demo false false) (cmdline ["-v", "Bob"]) =
      [Event.on_err ⟨Error_Type.UNEXPECTED_ARG, "-v".toList⟩] := by
  decide

/-- C6. When a `Single_Item` names an option whose first matching descriptor is `EXPECT_ARG`
or `MAYBE_ARG` and the next string exists and is positional-looking, the loop body invokes
that descriptor's action exactly once, with the next string as value, calls no error handler,
and advances the cursor by 2: the scan continues after the value string, which is neither
classified nor delivered to the positional handler.  Scenario A: over the registry of
`example/demo.cpp` with combining disabled, `--count 3 -a friend Bob` invokes the action of
`count` with `3`, the action of `adjective` with `friend`, and the positional handler with
`Bob`. -/
theorem lookahead_consumed (P : Parser) (argv : List Str) (p : Nat) (name : Str) (i : Nat)
    (d : Opt_Spec) (hp : p + 1 < argv.length)
    (hI : parse_item P (token argv p) = Item.Single_Item name)
    (hfm : first_match P.specs name i d)
    (hpol : d.arg_policy = Arg_Policy.EXPECT_ARG ∨ d.arg_policy = Arg_Policy.MAYBE_ARG)
    (hnext : positional_looking (token argv (p + 1))) :
    opt_step P argv argv.length p =
      ⟨p + 2, true, [Event.action d (some (token argv (p + 1)))]⟩ ∧
    (parse_from P argv p).2 =
      Event.action d (some (token argv (p + 1))) :: (parse_from P argv (p + 2)).2 ∧
    parse (demo false false) (cmdline ["--count", "3", "-a", "friend", "Bob"]) =
      [Event.action demo_count (some "3".toList),
        Event.action demo_adjective (some "friend".toList), Event.on_arg "Bob".toList] := by
  have hs := opt_step_Single_found P argv argv.length p name i d hI hfm
  rw [lookahead_some argv p hp (is_arg_of_positional_looking _ hnext)] at hs
  have hs' : opt_step P argv argv.length p =
      ⟨p + 2, true, [Event.action d (some (token argv (p + 1)))]⟩ := by
    rw [hs]
    rcases hpol with hpol | hpol <;> simp [eval_found, hpol]
  refine ⟨hs', ?_, by decide⟩
  rw [parse_from_continue P argv p _ _ (by omega) hs']
  rfl

/-- C6 at a concrete input: in Scenario A the step at `--count` consumes `3`. -/
theorem lookahead_consumed_witness :
    opt_step (demo false false) (cmdline ["--count", "3", "-a", "friend", "Bob"]) 6 1 =
      ⟨3, true, [Event.action demo_count (some "3".toList)]⟩ :=
  (lookahead_consumed (demo false false) (cmdline ["--count", "3", "-a", "friend", "Bob"]) 1
    "count".toList 2 demo_count (by decide) (by decide) (by decide) (by decide) (by decide)).1

/-- C7, as the code has it.  When a `Single_Item` naming a `MAYBE_ARG` option is immediately
followed by a string of length at least 2 whose first character is the dash, the option's
action is invoked with no value, no error is reported, and the cursor advances by 1: the scan
continues in option mode at the following string, which is classified on the next step. -/
theorem maybe_arg_before_option (P : Parser) (argv : List Str) (p : Nat) (name : Str) (i : Nat)
    (d : Opt_Spec) (hp : p + 1 < argv.length)
    (hI : parse_item P (token argv p) = Item.Single_Item name)
    (hfm : first_match P.specs name i d) (hpol : d.arg_policy = Arg_Policy.MAYBE_ARG)
    (hlen : 2 ≤ (token argv (p + 1)).length)
    (hdash : (token argv (p + 1)).head? = some '-') :
    opt_step P argv argv.length p = ⟨p + 1, true, [Event.action d none]⟩ ∧
    (parse_from P argv p).2 = Event.action d none :: (parse_from P argv (p + 1)).2 := by
  have hs := opt_step_Single_found P argv argv.length p name i d hI hfm
  rw [lookahead_none argv _ p ((is_arg_false_iff _).mpr ⟨hlen, hdash⟩)] at hs
  have hs' : opt_step P argv argv.length p = ⟨p + 1, true, [Event.action d none]⟩ := by
    rw [hs]
    simp [eval_found, hpol]
  refine ⟨hs', ?_⟩
  rw [parse_from_continue P argv p _ _ (by omega) hs']
  rfl

/-- C7 at a concrete input over the registry of `example/demo.cpp`: `-a` followed by `-v`
invokes the action of `adjective` without a value and goes on with `-v`. -/
theorem maybe_arg_before_option_witness :
    (parse_from (demo false false) (cmdline ["-a", "-v"]) 1).2 =
      Event.action demo_adjective none ::
        (parse_from (demo false false) (cmdline ["-a", "-v"]) 2).2 :=
  (maybe_arg_before_option (demo false false) (cmdline ["-a", "-v"]) 1 "a".toList 3
    demo_adjective (by decide) (by decide) (by decide) (by decide) (by decide) (by decide)).2

/-- C7 as stated fails for the lone dash.  Over the registry of `example/demo.cpp`, `-a` is a
`Single_Item` naming a `MAYBE_ARG` option and the next string, a lone dash, begins with the
dash; yet `is_arg` accepts it, the action of `adjective` is invoked with the dash as value, and
the cursor moves from 1 to 3, so the dash is consumed. -/
theorem maybe_arg_before_option_counterexample :
    parse_item (demo false false) "-a".toList = Item.Single_Item "a".toList ∧
    first_match demo_specs "a".toList 3 demo_adjective ∧
    demo_adjective.arg_policy = Arg_Policy.MAYBE_ARG ∧
    "-".toList.head? = some '-' ∧
    is_arg "-".toList = true ∧
    opt_step (demo false false) (cmdline ["-a", "-"]) 3 1 =
      ⟨3, true, [Event.action demo_adjective (some "-".toList)]⟩ ∧
    parse (demo false false) (cmdline ["-a", "-"]) =
      [Event.action demo_adjective (some "-".toList)] := by
  decide

/-! ## The search for the equals sign -/

theorem find_eq_some (s : Str) (c : Char) (i : Nat) :
    find s c = some i ↔ s[i]? = some c ∧ ∀ j, j < i → s[j]? ≠ some c := by
  induction s generalizing i with
  | nil => simp [find]
  | cons x xs ih =>
    unfold find
    by_cases hx : x = c
    · simp only [hx, if_true, Option.some.injEq]
      constructor
      · intro h
        subst h
        simp
      · rintro ⟨_, h2⟩
        cases i with
        | zero => rfl
        | succ i => exact absurd (by simp) (h2 0 (by omega))
    · simp only [hx, if_false, Option.map_eq_some']
      constructor
      · rintro ⟨k, hk, rfl⟩
        obtain ⟨h1, h2⟩ := (ih k).mp hk
        refine ⟨by simpa using h1, ?_⟩
        intro j hj
        cases j with
        | zero => simpa using hx
        | succ j => simpa using h2 j (by omega)
      · rintro ⟨h1, h2⟩
        cases i with
        | zero => simp at h1; exact absurd h1 hx
        | succ i =>
          refine ⟨i, (ih i).mpr ⟨by simpa using h1, ?_⟩, rfl⟩
          intro j hj
          simpa using h2 (j + 1) (by omega)

theorem find_eq_none (s : Str) (c : Char) :
    find s c = none ↔ ∀ j : Nat, s[j]? ≠ some c := by
  constructor
  · intro h j hj
    have : ∃ i, find s c = some i := by
      induction j using Nat.strong_induction_on with
      | _ j ih =>
        by_cases hex : ∃ k, k < j ∧ s[k]? = some c
        · obtain ⟨k, hk, hkc⟩ := hex
          exact ih k hk hkc
        · push_neg at hex
          exact ⟨j, (find_eq_some s c j).mpr ⟨hj, hex⟩⟩
    obtain ⟨i, hi⟩ := this
    rw [h] at hi
    simp at hi
  · intro h
    cases hf : find s c with
    | none => rfl
    | some i => exact absurd ((find_eq_some s c i).mp hf).1 (h i)


theorem at_one_eq_dash (s : Str) : at_ s 1 = '-' ↔ s[1]? = some '-' := by
  match s with
  | [] => simp [at_]
  | [a] => simp [at_]
  | a :: b :: r => simp [at_]

/-- The classification of a token longer than 2 that begins with a dash and is not a cluster. -/
theorem parse_item_noncombi (P : Parser) (s : Str) (hl : 2 < s.length)
    (h0 : s.head? = some '-') (hnc : s[1]? = some '-' ∨ P.combi_allowed = false) :
    parse_item P s =
      match find s '=' with
      | none => Item.Single_Item (s.drop (base_pos s))
      | some eq_pos =>
        Item.Full_Item ((s.drop (base_pos s)).take (size_sub eq_pos (base_pos s)))
          (s.drop (eq_pos + 1)) := by
  have h0' := (at_zero_eq_dash s).mpr h0
  have h1 : (decide (s.length < 2) || at_ s 0 != '-') = false := by
    simp [h0']
    omega
  have h2 : ¬ s.length = 2 := by omega
  unfold parse_item
  rw [h1]
  simp only [Bool.false_eq_true, if_false, h2, substr, substr_from, base_pos,
    ← at_one_eq_dash]
  by_cases hb : at_ s 1 = '-'
  · cases find s '=' <;> simp [hb]
  · have hc : P.combi_allowed = false := by
      rcases hnc with h | h
      · exact absurd ((at_one_eq_dash s).mpr h) hb
      · exact h
    cases find s '=' <;> simp [hb, hc]

theorem no_eq_before_base (s : Str) (h0 : s.head? = some '-') (j : Nat)
    (hj : j < base_pos s) : s[j]? ≠ some '=' := by
  match s, h0 with
  | a :: r, h0 =>
    simp at h0
    subst h0
    cases j with
    | zero => simp
    | succ j =>
      unfold base_pos at hj
      split at hj
      · rename_i h1
        have : j = 0 := by omega
        subst this
        rw [h1]
        simp
      · omega

theorem find_eq_find_from (s : Str) (h0 : s.head? = some '-') :
    find s '=' = find_from s '=' (base_pos s) := by
  unfold find_from
  cases hf : find (s.drop (base_pos s)) '=' with
  | none =>
    rw [Option.map_none', find_eq_none]
    intro j
    rcases Nat.lt_or_ge j (base_pos s) with hj | hj
    · exact no_eq_before_base s h0 j hj
    · have := (find_eq_none _ _).mp hf (j - base_pos s)
      rw [List.getElem?_drop] at this
      rwa [Nat.add_sub_cancel' hj] at this
  | some k =>
    rw [Option.map_some', find_eq_some]
    obtain ⟨h1, h2⟩ := (find_eq_some _ _ _).mp hf
    rw [List.getElem?_drop] at h1
    refine ⟨by rwa [Nat.add_comm], ?_⟩
    intro j hj
    rcases Nat.lt_or_ge j (base_pos s) with hb | hb
    · exact no_eq_before_base s h0 j hb
    · have := h2 (j - base_pos s) (by omega)
      rw [List.getElem?_drop] at this
      rwa [Nat.add_sub_cancel' hb] at this

/-- C11. For every token longer than 2 that begins with a dash and is not classified as a
cluster (it begins with two dashes, or combining is disabled), with `base_pos` 2 for a doubled
dash and 1 otherwise: if `eq` is the first position at or after `base_pos` holding an equals
sign, `parse_item` returns `Full_Item` with the characters from `base_pos` up to `eq` as name
and those after `eq` as value; if there is no such position it returns `Single_Item` with the
characters from `base_pos` on.  The search from position 0 made by the code finds the same
position as a search from `base_pos`, the name of a `Full_Item` holds no equals sign, and
prefix, name, equals sign and value put together give the token back.  With combining
disabled `-count=3` is `Full_Item` with name `count` and value `3`. -/
theorem parse_item_full_or_single (P : Parser) (s : Str) (hl : 2 < s.length)
    (h0 : s.head? = some '-') (hnc : s[1]? = some '-' ∨ P.combi_allowed = false) :
    find s '=' = find_from s '=' (base_pos s) ∧
    (∀ eq : Nat, base_pos s ≤ eq → s[eq]? = some '=' →
      (∀ j : Nat, base_pos s ≤ j → j < eq → s[j]? ≠ some '=') →
      parse_item P s =
        Item.Full_Item ((s.drop (base_pos s)).take (eq - base_pos s)) (s.drop (eq + 1)) ∧
      '=' ∉ (s.drop (base_pos s)).take (eq - base_pos s) ∧
      s.take (base_pos s) ++ (s.drop (base_pos s)).take (eq - base_pos s) ++ ['='] ++
        s.drop (eq + 1) = s) ∧
    ((∀ j : Nat, base_pos s ≤ j → s[j]? ≠ some '=') →
      parse_item P s = Item.Single_Item (s.drop (base_pos s))) ∧
    parse_item (demo false false) "-count=3".toList =
      Item.Full_Item "count".toList "3".toList := by
  refine ⟨find_eq_find_from s h0, ?_, ?_, by decide⟩
  · intro eq hle heq hfirst
    have hfind : find s '=' = some eq := by
      rw [find_eq_some]
      refine ⟨heq, fun j hj => ?_⟩
      rcases Nat.lt_or_ge j (base_pos s) with hb | hb
      · exact no_eq_before_base s h0 j hb
      · exact hfirst j hb hj
    have hsub : size_sub eq (base_pos s) = eq - base_pos s := by simp [size_sub, hle]
    refine ⟨?_, ?_, ?_⟩
    · rw [parse_item_noncombi P s hl h0 hnc, hfind]
      simp only [hsub]
    · intro hmem
      obtain ⟨k, hk⟩ := List.getElem?_of_mem hmem
      have hklt : k < eq - base_pos s := by
        by_contra hge
        rw [List.getElem?_take, if_neg hge] at hk
        simp at hk
      rw [List.getElem?_take, if_pos hklt, List.getElem?_drop] at hk
      exact hfirst (base_pos s + k) (by omega) (by omega) hk
    · have hlt : eq < s.length := by
        by_contra hge
        rw [List.getElem?_eq_none (by omega)] at heq
        simp at heq
      have hget : s[eq] = '=' := by
        rw [List.getElem?_eq_getElem hlt] at heq
        exact Option.some.inj heq
      have h1 : s.take (base_pos s) ++ (s.drop (base_pos s)).take (eq - base_pos s) =
          s.take eq := by
        have := List.take_add s (base_pos s) (eq - base_pos s)
        rw [Nat.add_sub_cancel' hle] at this
        exact this.symm
      rw [h1, List.append_assoc, List.singleton_append, ← hget,
        ← List.drop_eq_getElem_cons hlt, List.take_append_drop]
  · intro hnone
    have hfind : find s '=' = none := by
      rw [find_eq_none]
      intro j
      rcases Nat.lt_or_ge j (base_pos s) with hb | hb
      · exact no_eq_before_base s h0 j hb
      · exact hnone j hb
    rw [parse_item_noncombi P s hl h0 hnc, hfind]

/-- C11 at concrete tokens: with combining enabled `--num=37` is still `Full_Item`, and with
combining disabled `-all` is `Single_Item`. -/
theorem parse_item_full_or_single_witness :
    parse_item (demo true false) "--num=37".toList =
      Item.Full_Item "num".toList "37".toList ∧
    parse_item (demo false false) "-all".toList = Item.Single_Item "all".toList :=
  ⟨((parse_item_full_or_single (demo true false) "--num=37".toList (by decide) (by decide)
      (by decide)).2.1 5 (by decide) (by decide) (by decide)).1,
   (parse_item_full_or_single (demo false false) "-all".toList (by decide) (by decide)
      (by decide)).2.2.1 (fun j _ => (find_eq_none "-all".toList '=').mp (by decide) j)⟩

/-! ## Claims about `find_spec` and `is_arg` -/

theorem find_spec_iff_first_match (P : Parser) (name : Str) (i : Nat) :
    find_spec P name = some i ↔ ∃ d, first_match P.specs name i d :=
  ⟨find_spec_some P name i, fun ⟨d, hd⟩ => find_spec_first P name i d hd⟩

/-- C16. For every registry and non-empty name, `find_spec` returns the position of the
earliest descriptor, in registration order, whose short name is the name's only character when
the name has one character, or whose long name is the whole name when it is longer; it
returns nothing exactly when no descriptor satisfies that condition.  Later duplicates are
never selected, and a one-character name is never matched through a long name. -/
theorem find_spec_earliest (P : Parser) (name : Str) :
    (∀ c, name = [c] →
      (∀ i, find_spec P name = some i ↔
        ∃ d, P.specs[i]? = some d ∧ d.short_name = c ∧
          ∀ e ∈ P.specs.take i, e.short_name ≠ c) ∧
      (find_spec P name = none ↔ ∀ d ∈ P.specs, d.short_name ≠ c)) ∧
    (2 ≤ name.length →
      (∀ i, find_spec P name = some i ↔
        ∃ d, P.specs[i]? = some d ∧ d.long_name = name ∧
          ∀ e ∈ P.specs.take i, e.long_name ≠ name) ∧
      (find_spec P name = none ↔ ∀ d ∈ P.specs, d.long_name ≠ name)) ∧
    find_spec ⟨dup_specs, false, false⟩ "a".toList = some 1 ∧
    find_spec ⟨dup_specs, false, false⟩ "all".toList = some 1 ∧
    find_spec ⟨[⟨'v', "a".toList, Arg_Policy.NO_ARG, 0⟩], false, false⟩ "a".toList = none := by
  refine ⟨?_, ?_, by decide, by decide, by decide⟩
  · rintro c rfl
    have hm : ∀ d : Opt_Spec, name_matches [c] d = (d.short_name == c) := by
      intro d
      simp [name_matches, at_]
    constructor
    · intro i
      rw [find_spec_iff_first_match]
      simp only [first_match, hm, beq_iff_eq, beq_eq_false_iff_ne, ne_eq]
    · rw [find_spec_none_iff]
      simp only [hm, beq_eq_false_iff_ne, ne_eq]
  · intro hl
    have hne : ¬ name.length = 1 := by omega
    have hm : ∀ d : Opt_Spec, name_matches name d = (d.long_name == name) := by
      intro d
      simp [name_matches, hne]
    constructor
    · intro i
      rw [find_spec_iff_first_match]
      simp only [first_match, hm, beq_iff_eq, beq_eq_false_iff_ne, ne_eq]
    · rw [find_spec_none_iff]
      simp only [hm, beq_eq_false_iff_ne, ne_eq]

/-- C16 at concrete inputs over the registry of `example/demo.cpp`: `c` is found at position 2
by its short name, `count` at position 2 by its long name, and the one-character name `x`
is not found. -/
theorem find_spec_earliest_witness :
    find_spec (demo false false) "c".toList = some 2 ∧
    find_spec (demo false false) "count".toList = some 2 ∧
    find_spec (demo false false) "x".toList = none :=
  ⟨((find_spec_earliest (demo false false) "c".toList).1 'c' rfl).1 2 |>.mpr
      ⟨demo_count, by decide, by decide, by decide⟩,
   ((find_spec_earliest (demo false false) "count".toList).2.1 (by decide)).1 2 |>.mpr
      ⟨demo_count, by decide, by decide, by decide⟩,
   ((find_spec_earliest (demo false false) "x".toList).1 'x' rfl).2.mpr (by decide)⟩

theorem is_arg_iff (s : Str) : is_arg s = true ↔ positional_looking s := by
  constructor
  · intro h
    by_contra hn
    have : is_arg s = false := by
      rw [is_arg_false_iff]
      unfold positional_looking at hn
      push_neg at hn
      exact ⟨hn.1, hn.2⟩
    rw [this] at h
    simp at h
  · exact is_arg_of_positional_looking s

theorem lookahead_eq_some_iff (argv : List Str) (end_ p : Nat) (t : Str) :
    lookahead argv end_ p = some t ↔
      (p + 1 ≠ end_ ∧ positional_looking (token argv (p + 1)) ∧ t = token argv (p + 1)) := by
  unfold lookahead
  rw [← is_arg_iff]
  by_cases h1 : p + 1 = end_ <;> cases h2 : is_arg (token argv (p + 1)) <;>
    simp [h1, eq_comm]

/-! ## Steps on a `Full_Item` -/

theorem visit_Full_eq (P : Parser) (argv : List Str) (end_ p : Nat) (name value : Str) :
    visit_Full P argv end_ p name value =
      (if (eval P name (some value)).1.isSome = true ∧ P.abort_on_error = true then end_
        else p + 1,
        eval_report P (token argv p) name (some value)) := by
  simp only [visit_Full, eval_report]
  cases hE : (eval P name (some value)).1 <;> cases ha : P.abort_on_error <;> simp

theorem parse_item_inline (P : Parser) (name value : Str) (h : '=' ∉ name) :
    parse_item P ('-' :: '-' :: (name ++ '=' :: value)) = Item.Full_Item name value := by
  have hs : ∀ j : Nat, j < name.length + 2 →
      ('-' :: '-' :: (name ++ '=' :: value))[j]? ≠ some '=' := by
    intro j hj
    match j with
    | 0 => simp
    | 1 => simp
    | j + 2 =>
      simp only [List.getElem?_cons_succ]
      rw [List.getElem?_append_left (by omega)]
      intro hc
      exact h (List.getElem?_mem hc)
  have hfind : find ('-' :: '-' :: (name ++ '=' :: value)) '=' = some (name.length + 2) := by
    rw [find_eq_some]
    refine ⟨?_, hs⟩
    simp only [List.getElem?_cons_succ]
    rw [List.getElem?_append_right (le_refl _)]
    simp
  rw [parse_item_noncombi P _ (by simp) (by simp) (Or.inl (by simp)), hfind]
  have hb : base_pos ('-' :: '-' :: (name ++ '=' :: value)) = 2 := by simp [base_pos]
  simp [hb, size_sub]

/-- C15. For every registry and every `Full_Item` token, the loop body calls `eval` with the
name and exactly the inline value, which is present even when it is empty, and reports an
error, if any, with the text of the token.  The next string plays no part: unless the scan
aborts, the cursor advances by exactly 1 and the scan continues at the next string.  A token
made of two dashes, a name without equals sign, an equals sign and a value is a `Full_Item`
with that name and value, so that an empty value after the equals sign gives
`UNEXPECTED_ARG` on a `NO_ARG` option and invokes the action of an `EXPECT_ARG` option with
the empty string. -/
theorem full_item_step (P : Parser) (argv : List Str) (p : Nat) (name value : Str)
    (hp : p < argv.length) (hI : parse_item P (token argv p) = Item.Full_Item name value) :
    opt_step P argv argv.length p =
      ⟨if (eval P name (some value)).1.isSome = true ∧ P.abort_on_error = true
          then argv.length else p + 1,
        true, eval_report P (token argv p) name (some value)⟩ ∧
    (parse_from P argv p).2 =
      eval_report P (token argv p) name (some value) ++
        (if (eval P name (some value)).1.isSome = true ∧ P.abort_on_error = true then []
          else (parse_from P argv (p + 1)).2) ∧
    (∀ nm val : Str, '=' ∉ nm →
      parse_item P ('-' :: '-' :: (nm ++ '=' :: val)) = Item.Full_Item nm val) ∧
    (∀ i d, name ≠ [] → first_match P.specs name i d →
      (d.arg_policy = Arg_Policy.NO_ARG →
        eval_report P (token argv p) name (some value) =
          [Event.on_err ⟨Error_Type.UNEXPECTED_ARG, token argv p⟩]) ∧
      (d.arg_policy = Arg_Policy.EXPECT_ARG →
        eval_report P (token argv p) name (some value) = [Event.action d (some value)])) := by
  have hs : opt_step P argv argv.length p =
      ⟨if (eval P name (some value)).1.isSome = true ∧ P.abort_on_error = true
          then argv.length else p + 1,
        true, eval_report P (token argv p) name (some value)⟩ := by
    simp only [opt_step, hI, visit_Full_eq]
  refine ⟨hs, ?_, parse_item_inline P, ?_⟩
  · rw [parse_from_continue P argv p _ _ hp hs]
    by_cases hc : (eval P name (some value)).1.isSome = true ∧ P.abort_on_error = true
    · simp only [hc, and_self, if_true]
      rw [parse_from_end P argv _ (le_refl _)]
    · simp only [hc, if_false]
  · intro i d hne hfm
    unfold eval_report
    rw [eval_first_match P name (some value) i d hne hfm]
    constructor
    · intro hpol
      simp [eval_found, hpol]
    · intro hpol
      simp [eval_found, hpol]

/-- C15 at concrete inputs over the registry of `example/demo.cpp`: `--count=` invokes the
action of `count` with the empty string and goes on with the next string, which is not taken
as a value; `--version=` reports `UNEXPECTED_ARG`. -/
theorem full_item_step_witness :
    (parse_from (demo false false) (cmdline ["--count=", "Bob"]) 1).2 =
      [Event.action demo_count (some [])] ++
        (parse_from (demo false false) (cmdline ["--count=", "Bob"]) 2).2 ∧
    eval_report (demo false false) "--version=".toList "version".toList (some []) =
      [Event.on_err ⟨Error_Type.UNEXPECTED_ARG, "--version=".toList⟩] :=
  ⟨(full_item_step (demo false false) (cmdline ["--count=", "Bob"]) 1 "count".toList []
      (by decide) (by decide)).2.1,
   ((full_item_step (demo false false) (cmdline ["--version="]) 1 "version".toList []
      (by decide) (by decide)).2.2.2 0 demo_version (by decide) (by decide)).1 rfl⟩


/-! ## Steps on a `Combi_Item` -/

theorem parse_item_Combi_shape (P : Parser) (s name : Str)
    (h : parse_item P s = Item.Combi_Item name) :
    P.combi_allowed = true ∧ s = '-' :: name ∧ 2 ≤ name.length ∧ name.head? ≠ some '-' := by
  by_cases h1 : (decide (s.length < 2) || at_ s 0 != '-') = true
  · simp [parse_item, h1] at h
  · have hl : ¬ s.length < 2 := by
      intro hc
      simp [hc] at h1
    have h0 : at_ s 0 = '-' := by
      by_contra hc
      simp [hc] at h1
    unfold parse_item at h
    rw [if_neg h1] at h
    by_cases h2 : s.length = 2
    · rw [if_pos h2] at h
      split at h <;> cases h
    · rw [if_neg h2] at h
      have key : at_ s 1 ≠ '-' → s.drop 1 = name →
          s = '-' :: name ∧ 2 ≤ name.length ∧ name.head? ≠ some '-' := by
        intro hb hd
        match s, hd with
        | a :: b :: t, hd =>
          simp only [at_, List.getD_cons_zero, List.getD_cons_succ] at h0 hb
          simp only [List.drop_succ_cons, List.drop_zero] at hd
          subst hd
          subst h0
          simp only [List.length_cons] at hl h2
          refine ⟨rfl, ?_, ?_⟩
          · simp only [List.length_cons]
            omega
          · simpa using hb
      by_cases hb : at_ s 1 = '-' <;> cases hca : P.combi_allowed <;>
        cases hf : find s '=' <;>
        simp only [hb, hca, hf, if_true, if_false, decide_True, decide_False, Bool.and_true,
          Bool.and_false, Bool.false_eq_true, Bool.true_and, Bool.false_and, OfNat.ofNat_ne_one,
          reduceCtorEq, Item.Combi_Item.injEq, substr_from] at h <;>
        exact ⟨rfl, key hb h⟩

theorem visit_Single_reports (P : Parser) (argv : List Str) (end_ p : Nat) (name : Str) :
    visit_Single P argv end_ p name =
      (if (eval_reports P (token argv p) [(name, lookahead argv end_ p)]).1 = true then end_
        else p + (if (lookahead argv end_ p).isSome = true then 2 else 1),
        (eval_reports P (token argv p) [(name, lookahead argv end_ p)]).2) := by
  rw [visit_Single_eq]
  simp only [eval_reports, eval_report]
  cases hE : (eval P name (lookahead argv end_ p)).1 <;> cases ha : P.abort_on_error <;> simp

theorem eval_reports_append (P : Parser) (tok : Str) (a b : List (Str × Option Str)) :
    eval_reports P tok (a ++ b) =
      if (eval_reports P tok a).1 = true then eval_reports P tok a
      else ((eval_reports P tok b).1, (eval_reports P tok a).2 ++ (eval_reports P tok b).2) := by
  induction a with
  | nil => simp [eval_reports]
  | cons x xs ih =>
    obtain ⟨n, v⟩ := x
    simp only [List.cons_append, eval_reports, List.append_eq]
    by_cases hc : ((eval P n v).1.isSome && P.abort_on_error) = true
    · simp [hc]
    · simp only [hc, Bool.false_eq_true, if_false]
      rw [ih]
      by_cases hx : (eval_reports P tok xs).1 = true <;> simp [hx]

theorem combi_for_reports (P : Parser) (tok name : Str) (k i : Nat)
    (h : i + k ≤ name.length) :
    combi_for P tok name k i =
      eval_reports P tok (((name.drop i).take k).map fun c => ([c], none)) := by
  induction k generalizing i with
  | zero => simp [combi_for, eval_reports]
  | succ k ih =>
    have hi : i < name.length := by omega
    have hsub : substr name i 1 = [name[i]] := by
      rw [substr, List.drop_eq_getElem_cons hi]
      rfl
    have hcons : (name.drop i).take (k + 1) = name[i] :: (name.drop (i + 1)).take k := by
      rw [List.drop_eq_getElem_cons hi, List.take_succ_cons]
    rw [hcons]
    simp only [combi_for, hsub, List.map_cons, eval_reports, eval_report,
      ih (i + 1) (by omega)]
    cases hE : (eval P [name[i]] none).1 <;> cases ha : P.abort_on_error <;> simp

theorem visit_Combi_reports (P : Parser) (argv : List Str) (end_ p : Nat) (name : Str)
    (hn : 1 ≤ name.length) :
    visit_Combi P argv end_ p name =
      (if (eval_reports P (token argv p) (cluster_evals name (lookahead argv end_ p))).1 = true
        then end_ else p + (if (lookahead argv end_ p).isSome = true then 2 else 1),
        (eval_reports P (token argv p) (cluster_evals name (lookahead argv end_ p))).2) := by
  have hsz : size_sub name.length 1 = name.length - 1 := by simp [size_sub, hn]
  simp only [visit_Combi, hsz, substr_from]
  have hdl : name.take (name.length - 1) = name.dropLast := (List.dropLast_eq_take name).symm
  rw [combi_for_reports P _ name _ 0 (by omega), visit_Single_reports, cluster_evals,
    eval_reports_append, List.drop_zero, hdl]
  generalize eval_reports P (token argv p) (name.dropLast.map fun c => ([c], none)) = A
  generalize eval_reports P (token argv p)
    [(name.drop (name.length - 1), lookahead argv end_ p)] = B
  obtain ⟨a1, a2⟩ := A
  cases a1 <;> simp

theorem eval_reports_no_abort (P : Parser) (tok : Str) (l : List (Str × Option Str))
    (ha : P.abort_on_error = false) :
    eval_reports P tok l =
      (false, (l.map fun nv => eval_report P tok nv.1 nv.2).flatten) := by
  induction l with
  | nil => simp [eval_reports]
  | cons x xs ih =>
    obtain ⟨n, v⟩ := x
    simp [eval_reports, ha, ih]

/-! ## The events and the cursor of one step -/

theorem opt_step_Combi (P : Parser) (argv : List Str) (end_ p : Nat) (name : Str)
    (h : parse_item P (token argv p) = Item.Combi_Item name) :
    opt_step P argv end_ p =
      ⟨if (eval_reports P (token argv p) (cluster_evals name (lookahead argv end_ p))).1 = true
        then end_ else p + (if (lookahead argv end_ p).isSome = true then 2 else 1),
        true,
        (eval_reports P (token argv p) (cluster_evals name (lookahead argv end_ p))).2⟩ := by
  have hn := (parse_item_Combi_shape P _ name h).2.2.1
  simp only [opt_step, h, visit_Combi_reports P argv end_ p name (by omega)]

theorem opt_step_Single_reports (P : Parser) (argv : List Str) (end_ p : Nat) (name : Str)
    (h : parse_item P (token argv p) = Item.Single_Item name) :
    opt_step P argv end_ p =
      ⟨if (eval P name (lookahead argv end_ p)).1.isSome = true ∧ P.abort_on_error = true
        then end_ else p + (if (lookahead argv end_ p).isSome = true then 2 else 1),
        true, eval_report P (token argv p) name (lookahead argv end_ p)⟩ := by
  rw [opt_step_Single P argv end_ p name h, visit_Single_eq]
  simp only [eval_report]
  cases hE : (eval P name (lookahead argv end_ p)).1 <;> cases ha : P.abort_on_error <;> simp

theorem lookahead_isSome_iff (argv : List Str) (p : Nat) (hp : p < argv.length) :
    (lookahead argv argv.length p).isSome = true ↔
      (p + 1 < argv.length ∧ positional_looking (token argv (p + 1))) := by
  rw [Option.isSome_iff_exists]
  constructor
  · rintro ⟨t, ht⟩
    obtain ⟨h1, h2, _⟩ := (lookahead_eq_some_iff argv _ p t).mp ht
    exact ⟨by omega, h2⟩
  · rintro ⟨h1, h2⟩
    exact ⟨_, (lookahead_eq_some_iff argv _ p _).mpr ⟨by omega, h2, rfl⟩⟩

theorem mem_eval_report (P : Parser) (tok name : Str) (value : Option Str) (e : Error)
    (h : Event.on_err e ∈ eval_report P tok name value) :
    e.bad_item = tok ∧ (eval P name value).1 = some e.type := by
  unfold eval_report at h
  rcases List.mem_append.mp h with h | h
  · have := eval_no_err P name value _ h
    simp [Event.is_err] at this
  · cases hE : (eval P name value).1 with
    | none => simp [hE] at h
    | some k =>
      simp [hE] at h
      subst h
      exact ⟨rfl, rfl⟩

theorem mem_eval_reports (P : Parser) (tok : Str) (l : List (Str × Option Str)) (e : Error)
    (h : Event.on_err e ∈ (eval_reports P tok l).2) : e.bad_item = tok := by
  induction l with
  | nil => simp [eval_reports] at h
  | cons x xs ih =>
    obtain ⟨n, v⟩ := x
    simp only [eval_reports] at h
    split at h
    · exact (mem_eval_report P tok n v e h).1
    · rcases List.mem_append.mp h with h | h
      · exact (mem_eval_report P tok n v e h).1
      · exact ih h

theorem opt_step_err_text (P : Parser) (argv : List Str) (end_ p : Nat) (e : Error)
    (h : Event.on_err e ∈ (opt_step P argv end_ p).events) :
    e.bad_item = token argv p ∧ ¬ positional_looking (token argv p) := by
  have hpos : parse_item P (token argv p) ≠ Item.Arg_Item →
      ¬ positional_looking (token argv p) := by
    intro hne hpl
    exact hne ((parse_item_arg_iff P _).mpr hpl)
  cases hI : parse_item P (token argv p) with
  | Single_Item name =>
    rw [opt_step_Single_reports P argv end_ p name hI] at h
    exact ⟨(mem_eval_report P _ _ _ e h).1, hpos (by rw [hI]; simp)⟩
  | Combi_Item name =>
    rw [opt_step_Combi P argv end_ p name hI] at h
    exact ⟨mem_eval_reports P _ _ e h, hpos (by rw [hI]; simp)⟩
  | Full_Item name value =>
    simp only [opt_step, hI, visit_Full_eq] at h
    exact ⟨(mem_eval_report P _ _ _ e h).1, hpos (by rw [hI]; simp)⟩
  | EOO_Item => simp [opt_step, hI] at h
  | Arg_Item => simp [opt_step, hI] at h

theorem parse_from_err_text (P : Parser) (argv : List Str) (n p : Nat)
    (hn : argv.length - p ≤ n) (e : Error)
    (h : Event.on_err e ∈ (parse_from P argv p).2) :
    ∃ q, p ≤ q ∧ q < argv.length ∧ e.bad_item = token argv q ∧
      ¬ positional_looking (token argv q) := by
  induction n generalizing p with
  | zero =>
    rw [parse_from_end P argv p (by omega)] at h
    simp at h
  | succ n ih =>
    rcases Nat.lt_or_ge p argv.length with hp | hp
    · have hc := opt_step_cursor P argv argv.length p hp
      rw [parse_from_step P argv p hp] at h
      cases hb : (opt_step P argv argv.length p).opt_loop with
      | false =>
        simp only [hb, Bool.false_eq_true, if_false] at h
        rcases List.mem_append.mp h with h | h
        · obtain ⟨h1, h2⟩ := opt_step_err_text P argv _ p e h
          exact ⟨p, le_refl _, hp, h1, h2⟩
        · have := no_err_map_on_arg _ _ h
          simp [Event.is_err] at this
      | true =>
        simp only [hb, if_true] at h
        rcases List.mem_append.mp h with h | h
        · obtain ⟨h1, h2⟩ := opt_step_err_text P argv _ p e h
          exact ⟨p, le_refl _, hp, h1, h2⟩
        · have hlt := hc.2.2 hb
          obtain ⟨q, hq1, hq2, hq3⟩ := ih _ (by omega) h
          exact ⟨q, by omega, hq2, hq3⟩
    · rw [parse_from_end P argv p hp] at h
      simp at h

/-- C14. For every registry, flag setting and argument list, every error returned by `eval`
during a scan results in exactly one call of the error handler, carrying the error kind and
the whole text of the token at the cursor.  The callbacks of a step on a `Single_Item` or a
`Full_Item` are those of one evaluate-and-report with the token's text, those of a step on a
`Combi_Item` are those of a sequence of evaluate-and-reports, all with the text of the whole
cluster token; an evaluate-and-report holds one error-handler call when `eval` returned an
error and none otherwise.  Hence every error-handler call of a scan carries the text of a
token of the argument list that is not positional-looking, never a lookahead value. -/
theorem error_report_text (P : Parser) (argv : List Str) (p : Nat) :
    (∀ tok name value,
      (eval_report P tok name value).filter Event.is_err =
        match (eval P name value).1 with
        | some k => [Event.on_err ⟨k, tok⟩]
        | none => []) ∧
    (∀ name, parse_item P (token argv p) = Item.Single_Item name →
      (opt_step P argv argv.length p).events =
        eval_report P (token argv p) name (lookahead argv argv.length p)) ∧
    (∀ name value, parse_item P (token argv p) = Item.Full_Item name value →
      (opt_step P argv argv.length p).events =
        eval_report P (token argv p) name (some value)) ∧
    (∀ name, parse_item P (token argv p) = Item.Combi_Item name →
      (opt_step P argv argv.length p).events =
        (eval_reports P (token argv p)
          (cluster_evals name (lookahead argv argv.length p))).2) ∧
    (∀ e, Event.on_err e ∈ (opt_step P argv argv.length p).events →
      e.bad_item = token argv p ∧ ¬ positional_looking (token argv p)) ∧
    (∀ e, Event.on_err e ∈ parse P argv →
      ∃ q, 1 ≤ q ∧ q < argv.length ∧ e.bad_item = token argv q ∧
        ¬ positional_looking (token argv q)) := by
  refine ⟨?_, ?_, ?_, ?_, ?_, ?_⟩
  · intro tok name value
    have hn := eval_no_err P name value
    have hf : (eval P name value).2.filter Event.is_err = [] := by
      rw [List.filter_eq_nil_iff]
      intro ev hev
      rw [hn ev hev]
      simp
    unfold eval_report
    rw [List.filter_append, hf]
    cases (eval P name value).1 <;> simp [Event.is_err]
  · intro name hI
    rw [opt_step_Single_reports P argv _ p name hI]
  · intro name value hI
    simp only [opt_step, hI, visit_Full_eq]
  · intro name hI
    rw [opt_step_Combi P argv _ p name hI]
  · intro e he
    exact opt_step_err_text P argv _ p e he
  · intro e he
    exact parse_from_err_text P argv argv.length 1 (by omega) e he

/-- C14 at a concrete input over the registry of `example/demo.cpp`, combining enabled and
abort-on-error disabled: in the cluster `-vxc` followed by `5` the unregistered `x` and the
`EXPECT_ARG` option `c`, here last and given `5`, behave as the cluster asks, and the one
error is reported with the text of the whole cluster. -/
theorem error_report_text_witness :
    (opt_step (demo true false) (cmdline ["-vxc", "5"]) 3 1).events =
      [Event.action demo_version none,
        Event.on_err ⟨Error_Type.BAD_OPT, "-vxc".toList⟩,
        Event.action demo_count (some "5".toList)] :=
  ((error_report_text (demo true false) (cmdline ["-vxc", "5"]) 1).2.2.2.1 "vxc".toList
    (by decide)).trans (by decide)


/-- C12, as the code has it.  A token classified `Combi_Item` is, with combining enabled, a
dash followed by the cluster `c1 ... cn`, `n` at least 2.  The loop body evaluates
`c1 ... c(n-1)` in order, each as a one-character name without value, then `cn` as a
one-character name with the lookahead value (the next string when it exists and is
positional-looking, absent otherwise), every error being reported with the cluster token;
with abort-on-error enabled these evaluations stop after the first one that returns an
error.  With abort-on-error disabled all of them are made, and an `EXPECT_ARG` option in a
position before the last reports `MISSING_ARG` whatever follows the cluster.  Scenario C:
`-abc` followed by `5` invokes the actions of `a` and `b` without value and the action of
`c` with `5`, and no positional handler, under either abort setting. -/
theorem cluster_step (P : Parser) (argv : List Str) (p : Nat) (name : Str)
    (hI : parse_item P (token argv p) = Item.Combi_Item name) :
    (P.combi_allowed = true ∧ token argv p = '-' :: name ∧ 2 ≤ name.length) ∧
    (opt_step P argv argv.length p).events =
      (eval_reports P (token argv p) (cluster_evals name (lookahead argv argv.length p))).2 ∧
    (P.abort_on_error = false →
      (opt_step P argv argv.length p).events =
        ((cluster_evals name (lookahead argv argv.length p)).map
          fun nv => eval_report P (token argv p) nv.1 nv.2).flatten) ∧
    (P.abort_on_error = false →
      ∀ (k : Nat) (c : Char) (i : Nat) (d : Opt_Spec), k + 1 < name.length →
        name[k]? = some c → first_match P.specs [c] i d →
        d.arg_policy = Arg_Policy.EXPECT_ARG →
        Event.on_err ⟨Error_Type.MISSING_ARG, token argv p⟩ ∈
          (opt_step P argv argv.length p).events) ∧
    (∀ abort : Bool,
      parse ⟨scenario_c_specs, true, abort⟩ (cmdline ["-abc", "5"]) =
        [Event.action ⟨'a', [], Arg_Policy.NO_ARG, 0⟩ none,
          Event.action ⟨'b', [], Arg_Policy.NO_ARG, 1⟩ none,
          Event.action ⟨'c', [], Arg_Policy.EXPECT_ARG, 2⟩ (some "5".toList)]) := by
  obtain ⟨h1, h2, h3, _⟩ := parse_item_Combi_shape P _ name hI
  have hs := opt_step_Combi P argv argv.length p name hI
  have hev : P.abort_on_error = false →
      (opt_step P argv argv.length p).events =
        ((cluster_evals name (lookahead argv argv.length p)).map
          fun nv => eval_report P (token argv p) nv.1 nv.2).flatten := by
    intro ha
    rw [hs, eval_reports_no_abort P _ _ ha]
  refine ⟨⟨h1, h2, h3⟩, by rw [hs], hev, ?_, by decide⟩
  intro ha k c i d hk hc hfm hpol
  rw [hev ha, List.mem_flatten]
  refine ⟨eval_report P (token argv p) [c] none, ?_, ?_⟩
  · rw [List.mem_map]
    refine ⟨([c], none), ?_, rfl⟩
    unfold cluster_evals
    rw [List.mem_append]
    left
    rw [List.mem_map]
    refine ⟨c, ?_, rfl⟩
    rw [List.dropLast_eq_take]
    apply List.getElem?_mem (n := k)
    rw [List.getElem?_take, if_pos (by omega)]
    exact hc
  · unfold eval_report
    rw [eval_first_match P [c] none i d (by simp) hfm]
    simp [eval_found, hpol]

/-- C12 at a concrete input over the registry of `example/demo.cpp`, combining enabled and
abort-on-error disabled: in `-cv` followed by `5` the `EXPECT_ARG` option `c`, not last in its
cluster, reports `MISSING_ARG` although a positional-looking string follows. -/
theorem cluster_step_witness :
    Event.on_err ⟨Error_Type.MISSING_ARG, "-cv".toList⟩ ∈
      (opt_step (demo true false) (cmdline ["-cv", "5"]) 3 1).events :=
  (cluster_step (demo true false) (cmdline ["-cv", "5"]) 1 "cv".toList (by decide)).2.2.2.1
    rfl 0 'c' 2 demo_count (by decide) (by decide) (by decide) (by decide)

/-- C12 as stated fails with abort-on-error enabled.  Over the registry of
`example/demo.cpp`, combining enabled, `-xa` is a `Combi_Item` with the cluster `xa`.
Evaluating its last character `a` without value would invoke the action of `adjective`; but
the evaluation of the unregistered `x` returns `BAD_OPT` and the scan stops there, so `a` is
never evaluated: the only callback invocation is the error report. -/
theorem cluster_step_counterexample :
    parse_item (demo true true) "-xa".toList = Item.Combi_Item "xa".toList ∧
    (eval (demo true true) "a".toList none).2 = [Event.action demo_adjective none] ∧
    parse (demo true true) (cmdline ["-xa"]) =
      [Event.on_err ⟨Error_Type.BAD_OPT, "-xa".toList⟩] ∧
    Event.action demo_adjective none ∉ parse (demo true true) (cmdline ["-xa"]) := by
  decide

/-! ## The cursor with abort-on-error disabled -/

theorem opt_step_cursor_no_abort (P : Parser) (argv : List Str) (end_ p : Nat) (name : Str)
    (ha : P.abort_on_error = false)
    (hI : parse_item P (token argv p) = Item.Single_Item name ∨
      parse_item P (token argv p) = Item.Combi_Item name) :
    (opt_step P argv end_ p).p = p + (if (lookahead argv end_ p).isSome = true then 2 else 1) ∧
      (opt_step P argv end_ p).opt_loop = true := by
  rcases hI with hI | hI
  · rw [opt_step_Single_reports P argv end_ p name hI]
    simp [ha]
  · rw [opt_step_Combi P argv end_ p name hI, eval_reports_no_abort P _ _ ha]
    simp

/-- C19. With abort-on-error disabled, for every registry and argument list, the loop body on
a `Single_Item` or a `Combi_Item` advances the cursor by 2 exactly when a next string exists
and is positional-looking, and by 1 otherwise, whatever `eval` returned, and stays in option
mode.  Consequently a positional-looking string that follows an unregistered option or a
`NO_ARG` option is skipped: the step only reports the error and the scan continues after
that string. -/
theorem advance_regardless (P : Parser) (argv : List Str) (p : Nat) (name : Str)
    (ha : P.abort_on_error = false) (hp : p < argv.length)
    (hI : parse_item P (token argv p) = Item.Single_Item name ∨
      parse_item P (token argv p) = Item.Combi_Item name) :
    ((opt_step P argv argv.length p).p = p + 2 ↔
      (p + 1 < argv.length ∧ positional_looking (token argv (p + 1)))) ∧
    ((opt_step P argv argv.length p).p = p + 1 ↔
      ¬ (p + 1 < argv.length ∧ positional_looking (token argv (p + 1)))) ∧
    (opt_step P argv argv.length p).opt_loop = true ∧
    (parse_item P (token argv p) = Item.Single_Item name → p + 1 < argv.length →
      positional_looking (token argv (p + 1)) →
      ((∀ d ∈ P.specs, name_matches name d = false) →
        (parse_from P argv p).2 =
          Event.on_err ⟨Error_Type.BAD_OPT, token argv p⟩ :: (parse_from P argv (p + 2)).2) ∧
      (∀ i d, first_match P.specs name i d → d.arg_policy = Arg_Policy.NO_ARG →
        (parse_from P argv p).2 =
          Event.on_err ⟨Error_Type.UNEXPECTED_ARG, token argv p⟩ ::
            (parse_from P argv (p + 2)).2)) := by
  obtain ⟨hcur, hloop⟩ := opt_step_cursor_no_abort P argv argv.length p name ha hI
  have hiff := lookahead_isSome_iff argv p hp
  refine ⟨?_, ?_, hloop, ?_⟩
  · rw [hcur, ← hiff]
    by_cases hl : (lookahead argv argv.length p).isSome = true <;> simp [hl]
  · rw [hcur, ← hiff]
    by_cases hl : (lookahead argv argv.length p).isSome = true <;> simp [hl]
  · intro hS hnext hpl
    have hla := lookahead_some argv p hnext (is_arg_of_positional_looking _ hpl)
    have hs := opt_step_Single_reports P argv argv.length p name hS
    rw [hla] at hs
    simp only [ha, Bool.false_eq_true, and_false, if_false, Option.isSome_some, if_true] at hs
    constructor
    · intro hno
      rw [parse_from_continue P argv p _ _ hp hs]
      simp [eval_report, eval_no_match P name _ hno]
    · intro i d hfm hpol
      have hne := parse_item_Single_ne_nil P _ name hS
      rw [parse_from_continue P argv p _ _ hp hs]
      simp [eval_report, eval_first_match P name _ i d hne hfm, eval_found, hpol]

/-- C19 at a concrete input over the registry of `example/demo.cpp`, abort-on-error disabled:
the unregistered `-x` followed by `Bob` and `Al` reports `BAD_OPT` and resumes at `Al`;
`Bob` is skipped. -/
theorem advance_regardless_witness :
    (parse_from (demo false false) (cmdline ["-x", "Bob", "Al"]) 1).2 =
      Event.on_err ⟨Error_Type.BAD_OPT, "-x".toList⟩ ::
        (parse_from (demo false false) (cmdline ["-x", "Bob", "Al"]) 3).2 :=
  ((advance_regardless (demo false false) (cmdline ["-x", "Bob", "Al"]) 1 "x".toList rfl
    (by decide) (Or.inl (by decide))).2.2.2 (by decide) (by decide) (by decide)).1 (by decide)

/-! ## Termination -/

theorem eval_report_err (P : Parser) (tok name : Str) (value : Option Str)
    (h : (eval P name value).1.isSome = true) :
    ∃ e, Event.on_err e ∈ eval_report P tok name value := by
  obtain ⟨k, hk⟩ := Option.isSome_iff_exists.mp h
  exact ⟨⟨k, tok⟩, by simp [eval_report, hk]⟩

theorem eval_reports_stopped (P : Parser) (tok : Str) (l : List (Str × Option Str))
    (h : (eval_reports P tok l).1 = true) :
    P.abort_on_error = true ∧ ∃ e, Event.on_err e ∈ (eval_reports P tok l).2 := by
  induction l with
  | nil => simp [eval_reports] at h
  | cons x xs ih =>
    obtain ⟨n, v⟩ := x
    simp only [eval_reports] at h ⊢
    by_cases hc : ((eval P n v).1.isSome && P.abort_on_error) = true
    · simp only [hc, if_true]
      simp only [Bool.and_eq_true] at hc
      exact ⟨hc.2, eval_report_err P tok n v hc.1⟩
    · simp only [hc, Bool.false_eq_true, if_false] at h ⊢
      obtain ⟨h1, e, he⟩ := ih h
      exact ⟨h1, e, List.mem_append_right _ he⟩

/-- One execution of the body of the option loop either leaves option mode, keeping the cursor
or moving it by 1, or stays in option mode and moves the cursor by 1, by 2 when a next
string exists, or to the end after an error under abort-on-error. -/
theorem opt_step_advance (P : Parser) (argv : List Str) (p : Nat) (hp : p < argv.length) :
    ((opt_step P argv argv.length p).opt_loop = false ∧
      ((opt_step P argv argv.length p).p = p ∨ (opt_step P argv argv.length p).p = p + 1)) ∨
    ((opt_step P argv argv.length p).opt_loop = true ∧
      ((opt_step P argv argv.length p).p = p + 1 ∨
        ((opt_step P argv argv.length p).p = p + 2 ∧ p + 1 < argv.length) ∨
        ((opt_step P argv argv.length p).p = argv.length ∧ P.abort_on_error = true ∧
          ∃ e, Event.on_err e ∈ (opt_step P argv argv.length p).events))) := by
  have hadv : (lookahead argv argv.length p).isSome = true → p + 1 < argv.length :=
    fun h => ((lookahead_isSome_iff argv p hp).mp h).1
  cases hI : parse_item P (token argv p) with
  | Single_Item name =>
    right
    rw [opt_step_Single_reports P argv _ p name hI]
    refine ⟨rfl, ?_⟩
    by_cases hc : (eval P name (lookahead argv argv.length p)).1.isSome = true ∧
        P.abort_on_error = true
    · right; right
      simp only [hc, and_self, if_true, true_and]
      exact eval_report_err P _ name _ hc.1
    · simp only [hc, if_false]
      by_cases hl : (lookahead argv argv.length p).isSome = true
      · right; left
        simp only [hl, if_true, true_and]
        exact hadv hl
      · left
        simp only [hl, Bool.false_eq_true, if_false]
  | Combi_Item name =>
    right
    rw [opt_step_Combi P argv _ p name hI]
    refine ⟨rfl, ?_⟩
    by_cases hc : (eval_reports P (token argv p)
        (cluster_evals name (lookahead argv argv.length p))).1 = true
    · right; right
      simp only [hc, if_true, true_and]
      exact eval_reports_stopped P _ _ hc
    · simp only [hc, Bool.false_eq_true, if_false]
      by_cases hl : (lookahead argv argv.length p).isSome = true
      · right; left
        simp only [hl, if_true, true_and]
        exact hadv hl
      · left
        simp only [hl, Bool.false_eq_true, if_false]
  | Full_Item name value =>
    right
    simp only [opt_step, hI, visit_Full_eq, true_and]
    by_cases hc : (eval P name (some value)).1.isSome = true ∧ P.abort_on_error = true
    · right; right
      simp only [hc, and_self, if_true, true_and]
      exact eval_report_err P _ name _ hc.1
    · left
      simp only [hc, if_false]
  | EOO_Item =>
    left
    simp [opt_step, hI]
  | Arg_Item =>
    left
    simp [opt_step, hI]

theorem parse_from_cursor (P : Parser) (argv : List Str) (n p : Nat)
    (hn : argv.length - p ≤ n) (hp : p ≤ argv.length) :
    (parse_from P argv p).1 = argv.length := by
  induction n generalizing p with
  | zero =>
    rw [parse_from_end P argv p (by omega)]
    simp only
    omega
  | succ n ih =>
    rcases Nat.lt_or_ge p argv.length with hlt | hge
    · have hc := opt_step_cursor P argv argv.length p hlt
      rw [parse_from_step P argv p hlt]
      cases hb : (opt_step P argv argv.length p).opt_loop with
      | false => simp
      | true =>
        simp only [if_true]
        exact ih _ (by have := hc.2.2 hb; omega) hc.2.1
    · rw [parse_from_end P argv p hge]
      simp only
      omega

/-- C18. For every registry, flag setting and argument list with at least the program name,
`parse` terminates.  Each execution of the option loop's body either leaves option mode or
strictly advances the cursor: by 1, by 2 (only when a next string exists), or to the end after
an error under abort-on-error; the cursor never passes the end.  Both loops complete within
`argc` executions of their bodies, whatever larger bound is allowed, and the scan ends with the
cursor exactly at the end. -/
theorem scan_terminates (P : Parser) (argv : List Str) (hargc : 1 ≤ argv.length) :
    (∀ p, p < argv.length →
      (opt_step P argv argv.length p).p ≤ argv.length ∧
      (((opt_step P argv argv.length p).opt_loop = false ∧
          ((opt_step P argv argv.length p).p = p ∨
            (opt_step P argv argv.length p).p = p + 1)) ∨
        ((opt_step P argv argv.length p).opt_loop = true ∧
          ((opt_step P argv argv.length p).p = p + 1 ∨
            ((opt_step P argv argv.length p).p = p + 2 ∧ p + 1 < argv.length) ∨
            ((opt_step P argv argv.length p).p = argv.length ∧ P.abort_on_error = true ∧
              ∃ e, Event.on_err e ∈ (opt_step P argv argv.length p).events))))) ∧
    (∀ p, p < argv.length → (opt_step P argv argv.length p).opt_loop = true →
      p < (opt_step P argv argv.length p).p) ∧
    (∀ fuel, argv.length ≤ fuel →
      option_loop P argv argv.length fuel 1 true =
        option_loop P argv argv.length argv.length 1 true) ∧
    (∀ fuel q, argv.length ≤ fuel →
      arg_loop argv argv.length fuel q = arg_loop argv argv.length argv.length q) ∧
    (option_loop P argv argv.length argv.length 1 true).1 ≤ argv.length ∧
    (parse_from P argv 1).1 = argv.length := by
  refine ⟨?_, ?_, ?_, ?_, ?_, ?_⟩
  · intro p hp
    exact ⟨(opt_step_cursor P argv _ p hp).2.1, opt_step_advance P argv p hp⟩
  · intro p hp hb
    exact (opt_step_cursor P argv _ p hp).2.2 hb
  · intro fuel hf
    rw [option_loop_fuel P argv argv.length argv.length fuel 1 true (by omega) hf]
  · intro fuel q hf
    rw [arg_loop_fuel argv fuel q (by omega), arg_loop_fuel argv argv.length q (by omega)]
  · have h := parse_from_cursor P argv argv.length 1 (by omega) hargc
    simp only [parse_from] at h
    rw [arg_loop_fuel argv _ _ (by omega)] at h
    simp only at h
    omega
  · exact parse_from_cursor P argv argv.length 1 (by omega) hargc

/-- C18 at a concrete input over the registry of `example/demo.cpp`: the scan of Scenario A
ends with the cursor at 6, the number of strings. -/
theorem scan_terminates_witness :
    (parse_from (demo false false)
      (cmdline ["--count", "3", "-a", "friend", "Bob"]) 1).1 = 6 :=
  (scan_terminates (demo false false) (cmdline ["--count", "3", "-a", "friend", "Bob"])
    (by decide)).2.2.2.2.2

/-! ## Assertions -/

theorem parse_item_checked_eq (P : Parser) (s : Str) :
    parse_item_checked P s = some (parse_item P s) := by
  unfold parse_item_checked parse_item
  by_cases h1 : (decide (s.length < 2) || at_ s 0 != '-') = true
  · rw [if_pos h1, if_pos h1]
  · have hl : ¬ s.length < 2 := by
      intro hc
      simp [hc] at h1
    have h0 : at_ s 0 = '-' := by
      by_contra hc
      simp [hc] at h1
    rw [if_neg h1, if_neg h1]
    by_cases h2 : s.length = 2
    · rw [if_pos h2, if_pos h2, if_pos h0]
    · have h3 : (decide (2 < s.length) && at_ s 0 == '-') = true := by
        simp only [h0, beq_self_eq_true, Bool.and_true, decide_eq_true_eq]
        omega
      rw [if_neg h2, if_neg h2, if_pos h3]
      by_cases hb : at_ s 1 = '-' <;> cases hca : P.combi_allowed <;>
        cases hf : find s '=' <;> simp [hb]

theorem eval_checked_eq (P : Parser) (name : Str) (value : Option Str) :
    eval_checked P name value = some (eval P name value) := by
  unfold eval_checked eval find_spec_checked
  by_cases hn : name.isEmpty = true
  · simp only [hn, if_true]
  · simp only [hn, Bool.false_eq_true, if_false]
    cases hf : find_spec P name with
    | none => rfl
    | some it =>
      simp only []
      cases hd : P.specs[it]? with
      | none => rfl
      | some d =>
        simp only []
        split
        · rfl
        · split <;> rfl

theorem visit_Single_checked_eq (P : Parser) (argv : List Str) (end_ p : Nat) (name : Str) :
    visit_Single_checked P argv end_ p name = some (visit_Single P argv end_ p name) := by
  simp only [visit_Single_checked, visit_Single, eval_checked_eq]
  generalize (decide (p + 1 ≠ end_) && is_arg (token argv (p + 1))) = nia
  cases hE : (eval P name (if nia = true then some (token argv (p + 1)) else none)).1 <;>
    cases ha : P.abort_on_error <;> simp

theorem visit_Full_checked_eq (P : Parser) (argv : List Str) (end_ p : Nat)
    (name value : Str) :
    visit_Full_checked P argv end_ p name value =
      some (visit_Full P argv end_ p name value) := by
  simp only [visit_Full_checked, visit_Full, eval_checked_eq]
  cases hE : (eval P name (some value)).1 <;> cases ha : P.abort_on_error <;> simp

/-- Without a value `eval` never returns `UNEXPECTED_ARG`. -/
theorem eval_none_error (P : Parser) (name : Str) (e : Error_Type)
    (h : (eval P name none).1 = some e) :
    e = Error_Type.BAD_OPT ∨ e = Error_Type.MISSING_ARG := by
  rcases eval_cases P name none with hc | ⟨i, d, _, _, hc⟩
  · rw [hc] at h
    left
    exact (Option.some.inj h).symm
  · rw [hc] at h
    unfold eval_found at h
    split at h
    · right
      exact (Option.some.inj h).symm
    · simp at h

theorem combi_for_checked_eq (P : Parser) (tok name : Str) (n i : Nat) :
    combi_for_checked P tok name n i = some (combi_for P tok name n i) := by
  induction n generalizing i with
  | zero => rfl
  | succ n ih =>
    simp only [combi_for_checked, combi_for, eval_checked_eq, ih]
    cases hE : (eval P (substr name i 1) none).1 with
    | none => rfl
    | some e =>
      have := eval_none_error P _ e hE
      simp only [this, if_true]
      cases ha : P.abort_on_error <;> simp

theorem visit_Combi_checked_eq (P : Parser) (argv : List Str) (end_ p : Nat) (name : Str)
    (hn : 0 < name.length) :
    visit_Combi_checked P argv end_ p name = some (visit_Combi P argv end_ p name) := by
  simp only [visit_Combi_checked, visit_Combi, hn, if_true, combi_for_checked_eq,
    visit_Single_checked_eq]
  cases (combi_for P (token argv p) name (size_sub name.length 1) 0).1 <;> simp

theorem opt_step_checked_eq (P : Parser) (argv : List Str) (end_ p : Nat) :
    opt_step_checked P argv end_ p = some (opt_step P argv end_ p) := by
  unfold opt_step_checked opt_step
  rw [parse_item_checked_eq]
  cases hI : parse_item P (token argv p) with
  | Single_Item name => simp [visit_Single_checked_eq]
  | Combi_Item name =>
    have hn := (parse_item_Combi_shape P _ name hI).2.2.1
    simp [visit_Combi_checked_eq P argv end_ p name (by omega)]
  | Full_Item name value => simp [visit_Full_checked_eq]
  | EOO_Item => rfl
  | Arg_Item => rfl

theorem option_loop_checked_eq (P : Parser) (argv : List Str) (end_ fuel p : Nat)
    (b : Bool) :
    option_loop_checked P argv end_ fuel p b = some (option_loop P argv end_ fuel p b) := by
  induction fuel generalizing p b with
  | zero => rfl
  | succ n ih =>
    simp only [option_loop_checked, option_loop, opt_step_checked_eq, ih]
    split <;> rfl

/-- C20. For every registry, flag setting and argument list, no assertion on the path of the
scan can fail: the scan with the assertions of lines 208, 214, 269, 290, 296 and 304 checked
runs to its end and makes the same callback invocations as the scan without them.  In
particular every `Combi_Item` name produced by `parse_item` has at least 2 characters, so the
loop bound `name.length() - 1` does not wrap around, every `Single_Item` name is non-empty,
`eval` without value never returns `UNEXPECTED_ARG`, and `eval` hands only non-empty names
to `find_spec`. -/
theorem assertions_hold (P : Parser) (argv : List Str) (s name : Str) :
    parse_checked P argv = some (parse P argv) ∧
    parse_item_checked P s = some (parse_item P s) ∧
    (parse_item P s = Item.Combi_Item name →
      2 ≤ name.length ∧ size_sub name.length 1 = name.length - 1) ∧
    (parse_item P s = Item.Single_Item name → name ≠ []) ∧
    (∀ value, eval_checked P name value = some (eval P name value)) ∧
    (∀ e, (eval P name none).1 = some e → e ≠ Error_Type.UNEXPECTED_ARG) := by
  refine ⟨?_, parse_item_checked_eq P s, ?_, parse_item_Single_ne_nil P s name,
    eval_checked_eq P name, ?_⟩
  · simp only [parse_checked, option_loop_checked_eq]
    rfl
  · intro h
    have hn := (parse_item_Combi_shape P s name h).2.2.1
    refine ⟨hn, ?_⟩
    unfold size_sub
    rw [if_pos (by omega)]
  · intro e he
    rcases eval_none_error P name e he with h | h <;> rw [h] <;> simp

/-- C20 at concrete tokens, combining enabled: the cluster of `-abc` has 3 characters and the
name of `--count` is not empty. -/
theorem assertions_hold_witness :
    (2 ≤ "abc".toList.length ∧ size_sub "abc".toList.length 1 = "abc".toList.length - 1) ∧
    "count".toList ≠ [] :=
  ⟨(assertions_hold (demo true false) [] "-abc".toList "abc".toList).2.2.1 (by decide),
   (assertions_hold (demo true false) [] "--count".toList "count".toList).2.2.2.1 (by decide)⟩

/-! ## The scan depends on the strings from the cursor on -/

theorem token_append (pre l : List Str) (k : Nat) :
    token (pre ++ l) (pre.length + k) = token l k := by
  unfold token
  rw [List.getD_append_right _ _ _ _ (by omega), Nat.add_sub_cancel_left]

theorem lookahead_append (pre l : List Str) (k : Nat) :
    lookahead (pre ++ l) (pre.length + l.length) (pre.length + k) = lookahead l l.length k := by
  unfold lookahead
  rw [Nat.add_assoc, token_append]
  have : (pre.length + (k + 1) ≠ pre.length + l.length) ↔ (k + 1 ≠ l.length) := by omega
  simp only [this]

theorem opt_step_append (P : Parser) (pre l : List Str) (k : Nat) :
    opt_step P (pre ++ l) (pre.length + l.length) (pre.length + k) =
      ⟨pre.length + (opt_step P l l.length k).p, (opt_step P l l.length k).opt_loop,
        (opt_step P l l.length k).events⟩ := by
  cases hI : parse_item P (token l k) with
  | Single_Item name =>
    rw [opt_step_Single_reports P _ _ _ name (by rw [token_append]; exact hI),
      opt_step_Single_reports P _ _ _ name hI, lookahead_append, token_append]
    simp only [Step.mk.injEq, and_true]
    split <;> omega
  | Combi_Item name =>
    rw [opt_step_Combi P _ _ _ name (by rw [token_append]; exact hI),
      opt_step_Combi P _ _ _ name hI, lookahead_append, token_append]
    simp only [Step.mk.injEq, and_true]
    split <;> omega
  | Full_Item name value =>
    have hI' : parse_item P (token (pre ++ l) (pre.length + k)) =
        Item.Full_Item name value := by rw [token_append]; exact hI
    simp only [opt_step, hI, hI', visit_Full_eq, token_append, Step.mk.injEq, and_true]
    split <;> omega
  | EOO_Item =>
    have hI' : parse_item P (token (pre ++ l) (pre.length + k)) = Item.EOO_Item := by
      rw [token_append]; exact hI
    simp only [opt_step, hI, hI', Step.mk.injEq, and_true]
    omega
  | Arg_Item =>
    have hI' : parse_item P (token (pre ++ l) (pre.length + k)) = Item.Arg_Item := by
      rw [token_append]; exact hI
    simp only [opt_step, hI, hI']

theorem parse_from_append (P : Parser) (pre l : List Str) (n k : Nat)
    (hn : l.length - k ≤ n) :
    (parse_from P (pre ++ l) (pre.length + k)).2 = (parse_from P l k).2 := by
  induction n generalizing k with
  | zero =>
    rw [parse_from_end P l k (by omega),
      parse_from_end P (pre ++ l) _ (by rw [List.length_append]; omega)]
  | succ n ih =>
    rcases Nat.lt_or_ge k l.length with hk | hk
    · have hc := opt_step_cursor P l l.length k hk
      rw [parse_from_step P l k hk,
        parse_from_step P (pre ++ l) _ (by rw [List.length_append]; omega),
        List.length_append, opt_step_append]
      cases hb : (opt_step P l l.length k).opt_loop with
      | false =>
        simp only [Bool.false_eq_true, if_false]
        rw [List.drop_append]
      | true =>
        simp only [if_true]
        rw [ih _ (by have := hc.2.2 hb; omega)]
    · rw [parse_from_end P l k hk,
        parse_from_end P (pre ++ l) _ (by rw [List.length_append]; omega)]

/-- The scan from cursor `q` is the scan of the strings from `q` on. -/
theorem parse_from_drop (P : Parser) (l : List Str) (q : Nat) (hq : q ≤ l.length) :
    (parse_from P l q).2 = (parse_from P (l.drop q) 0).2 := by
  have h := parse_from_append P (l.take q) (l.drop q) (l.drop q).length 0 (by omega)
  rw [List.take_append_drop, List.length_take, Nat.min_eq_left hq] at h
  exact h


/-! ## A cluster and its characters as separate options -/

theorem scan_Single (P : Parser) (tok name : Str) (rest : List Str)
    (hI : parse_item P tok = Item.Single_Item name) :
    (parse_from P (tok :: rest) 0).2 =
      eval_report P tok name (lookahead (tok :: rest) (rest.length + 1) 0) ++
        (if (eval P name (lookahead (tok :: rest) (rest.length + 1) 0)).1.isSome = true ∧
            P.abort_on_error = true then []
          else (parse_from P
            (if (lookahead (tok :: rest) (rest.length + 1) 0).isSome = true
              then rest.drop 1 else rest) 0).2) := by
  have hs := opt_step_Single_reports P (tok :: rest) (tok :: rest).length 0 name hI
  have htok : token (tok :: rest) 0 = tok := rfl
  rw [htok] at hs
  rw [parse_from_continue P (tok :: rest) 0 _ _ (by simp) hs]
  simp only [List.length_cons]
  by_cases hc : (eval P name (lookahead (tok :: rest) (rest.length + 1) 0)).1.isSome = true ∧
      P.abort_on_error = true
  · simp only [hc, and_self, if_true]
    rw [parse_from_end P (tok :: rest) _ (by simp)]
  · simp only [hc, if_false]
    by_cases hl : (lookahead (tok :: rest) (rest.length + 1) 0).isSome = true
    · have := (lookahead_isSome_iff (tok :: rest) 0 (by simp)).mp hl
      simp only [hl, if_true]
      rw [parse_from_drop P (tok :: rest) (0 + 2) (by simpa using this.1)]
      rfl
    · simp only [hl, Bool.false_eq_true, if_false]
      rw [parse_from_drop P (tok :: rest) (0 + 1) (by simp)]
      rfl

theorem scan_Combi (P : Parser) (tok name : Str) (rest : List Str)
    (hI : parse_item P tok = Item.Combi_Item name) :
    (parse_from P (tok :: rest) 0).2 =
      (eval_reports P tok
          (cluster_evals name (lookahead (tok :: rest) (rest.length + 1) 0))).2 ++
        (if (eval_reports P tok
            (cluster_evals name (lookahead (tok :: rest) (rest.length + 1) 0))).1 = true
          then []
          else (parse_from P
            (if (lookahead (tok :: rest) (rest.length + 1) 0).isSome = true
              then rest.drop 1 else rest) 0).2) := by
  have hs := opt_step_Combi P (tok :: rest) (tok :: rest).length 0 name hI
  have htok : token (tok :: rest) 0 = tok := rfl
  rw [htok] at hs
  rw [parse_from_continue P (tok :: rest) 0 _ _ (by simp) hs]
  simp only [List.length_cons]
  by_cases hc : (eval_reports P tok
      (cluster_evals name (lookahead (tok :: rest) (rest.length + 1) 0))).1 = true
  · simp only [hc, if_true]
    rw [parse_from_end P (tok :: rest) _ (by simp)]
  · simp only [hc, Bool.false_eq_true, if_false]
    by_cases hl : (lookahead (tok :: rest) (rest.length + 1) 0).isSome = true
    · have := (lookahead_isSome_iff (tok :: rest) 0 (by simp)).mp hl
      simp only [hl, if_true]
      rw [parse_from_drop P (tok :: rest) (0 + 2) (by simpa using this.1)]
      rfl
    · simp only [hl, Bool.false_eq_true, if_false]
      rw [parse_from_drop P (tok :: rest) (0 + 1) (by simp)]
      rfl

theorem lookahead_cons (tok tok' : Str) (rest : List Str) :
    lookahead (tok :: rest) (rest.length + 1) 0 = lookahead (tok' :: rest) (rest.length + 1) 0 :=
  rfl

theorem lookahead_before_option (tok : Str) (x : Char) (more : List Str) :
    lookahead (tok :: ['-', x] :: more) (more.length + 1 + 1) 0 = none := by
  simp [lookahead, token, is_arg, at_]

theorem erase_eval_report (P : Parser) (tok tok' name : Str) (value : Option Str) :
    (eval_report P tok name value).map Event.erase_text =
      (eval_report P tok' name value).map Event.erase_text := by
  unfold eval_report
  cases (eval P name value).1 <;> simp [Event.erase_text]

theorem erase_eval_reports (P : Parser) (tok tok' : Str) (l : List (Str × Option Str)) :
    (eval_reports P tok l).1 = (eval_reports P tok' l).1 ∧
      (eval_reports P tok l).2.map Event.erase_text =
        (eval_reports P tok' l).2.map Event.erase_text := by
  induction l with
  | nil => simp [eval_reports]
  | cons x xs ih =>
    obtain ⟨n, v⟩ := x
    simp only [eval_reports]
    by_cases hc : ((eval P n v).1.isSome && P.abort_on_error) = true
    · simp only [hc, if_true, true_and]
      exact erase_eval_report P tok tok' n v
    · simp only [hc, Bool.false_eq_true, if_false, List.map_append]
      exact ⟨ih.1, by rw [ih.2, erase_eval_report P tok tok' n v]⟩

theorem parse_item_short_option (P : Parser) (c : Char) (hc : c ≠ '-') :
    parse_item P ['-', c] = Item.Single_Item [c] := by
  simp [parse_item, at_, substr_from, hc]

theorem parse_item_cluster (P : Parser) (hca : P.combi_allowed = true) (a : Char) (r : Str)
    (ha : a ≠ '-') (hr : r ≠ []) :
    parse_item P ('-' :: a :: r) = Item.Combi_Item (a :: r) := by
  obtain ⟨b, r', rfl⟩ := List.exists_cons_of_ne_nil hr
  simp [parse_item, at_, substr_from, ha, hca]

/-- The scan of the characters of a cluster written as separate one-character options, then
`rest`, makes the evaluations of the cluster followed by the scan of what `rest` leaves
after the lookahead, up to the text of the error reports. -/
theorem scan_singles (P : Parser) (tok : Str) (c : Char) (rest : List Str) (hc : c ≠ '-')
    (front : Str) (hfront : ∀ x ∈ front, x ≠ '-') :
    ((parse_from P ((front.map fun x => ['-', x]) ++ ['-', c] :: rest) 0).2).map
        Event.erase_text =
      ((eval_reports P tok ((front.map fun x => ([x], none)) ++
          [([c], lookahead (tok :: rest) (rest.length + 1) 0)])).2 ++
        (if (eval_reports P tok ((front.map fun x => ([x], none)) ++
            [([c], lookahead (tok :: rest) (rest.length + 1) 0)])).1 = true then []
          else (parse_from P
            (if (lookahead (tok :: rest) (rest.length + 1) 0).isSome = true
              then rest.drop 1 else rest) 0).2)).map Event.erase_text := by
  induction front with
  | nil =>
    simp only [List.map_nil, List.nil_append]
    rw [scan_Single P ['-', c] [c] rest (parse_item_short_option P c hc),
      lookahead_cons ['-', c] tok rest]
    simp only [eval_reports, List.map_append]
    rw [erase_eval_report P ['-', c] tok]
    by_cases hx : (eval P [c] (lookahead (tok :: rest) (rest.length + 1) 0)).1.isSome = true ∧
        P.abort_on_error = true
    · simp [hx]
    · have hx' : ¬ ((eval P [c] (lookahead (tok :: rest) (rest.length + 1) 0)).1.isSome &&
          P.abort_on_error) = true := by
        simpa using hx
      simp only [hx, hx', if_false, Bool.false_eq_true, List.append_nil, List.map_append]
  | cons f fs ih =>
    have hf : f ≠ '-' := hfront f (by simp)
    have ih' := ih (fun x hx => hfront x (by simp [hx]))
    obtain ⟨x, more, hT⟩ : ∃ x more,
        (fs.map fun x => ['-', x]) ++ ['-', c] :: rest = ['-', x] :: more := by
      cases fs with
      | nil => exact ⟨c, rest, rfl⟩
      | cons g gs => exact ⟨g, _, rfl⟩
    simp only [List.map_cons, List.cons_append]
    rw [scan_Single P ['-', f] [f] _ (parse_item_short_option P f hf)]
    have hla : lookahead (['-', f] :: ((fs.map fun x => ['-', x]) ++ ['-', c] :: rest))
        (((fs.map fun x => ['-', x]) ++ ['-', c] :: rest).length + 1) 0 = none := by
      rw [hT]
      exact lookahead_before_option _ x more
    rw [hla]
    simp only [Option.isSome_none, Bool.false_eq_true, if_false, eval_reports, List.map_append]
    rw [erase_eval_report P ['-', f] tok]
    by_cases hx : (eval P [f] none).1.isSome = true ∧ P.abort_on_error = true
    · have hx' : ((eval P [f] none).1.isSome && P.abort_on_error) = true := by
        simpa using hx
      simp [hx, hx']
    · have hx' : ¬ ((eval P [f] none).1.isSome && P.abort_on_error) = true := by
        simpa using hx
      simp only [hx, hx', if_false, Bool.false_eq_true, List.map_append]
      rw [ih']
      simp only [List.map_append, List.append_assoc]


theorem parse_cons (P : Parser) (prog : Str) (l : List Str) :
    parse P (prog :: l) = (parse_from P l 0).2 :=
  parse_from_append P [prog] l l.length 0 (by omega)

theorem actions_of_erase (t : List Event) :
    actions_of (t.map Event.erase_text) = actions_of t := by
  unfold actions_of
  rw [List.filterMap_map]
  congr 1
  funext ev
  cases ev <;> rfl

theorem error_kinds_of_erase (t : List Event) :
    error_kinds_of (t.map Event.erase_text) = error_kinds_of t := by
  unfold error_kinds_of
  rw [List.filterMap_map]
  congr 1
  funext ev
  cases ev <;> rfl

theorem positionals_of_erase (t : List Event) :
    positionals_of (t.map Event.erase_text) = positionals_of t := by
  unfold positionals_of
  rw [List.filterMap_map]
  congr 1
  funext ev
  cases ev <;> rfl

/-- C13. With combining enabled, for every registry, either abort setting, every cluster of
at least 2 characters none of which is the dash, and every list `rest` of further strings,
the scan of the cluster token followed by `rest` and the scan of its characters written as
separate one-character options followed by `rest` make the same callback invocations in the
same order, up to the text carried by the error reports: they have the same action
invocations (descriptor and value), the same error kinds and the same positional
deliveries. -/
theorem cluster_equiv_singles (P : Parser) (hca : P.combi_allowed = true) (prog cs : Str)
    (rest : List Str) (hn : 2 ≤ cs.length) (hd : ∀ c ∈ cs, c ≠ '-') :
    (parse P (prog :: ('-' :: cs) :: rest)).map Event.erase_text =
      (parse P (prog :: ((cs.map fun c => ['-', c]) ++ rest))).map Event.erase_text ∧
    actions_of (parse P (prog :: ('-' :: cs) :: rest)) =
      actions_of (parse P (prog :: ((cs.map fun c => ['-', c]) ++ rest))) ∧
    error_kinds_of (parse P (prog :: ('-' :: cs) :: rest)) =
      error_kinds_of (parse P (prog :: ((cs.map fun c => ['-', c]) ++ rest))) ∧
    positionals_of (parse P (prog :: ('-' :: cs) :: rest)) =
      positionals_of (parse P (prog :: ((cs.map fun c => ['-', c]) ++ rest))) := by
  have hmain : (parse P (prog :: ('-' :: cs) :: rest)).map Event.erase_text =
      (parse P (prog :: ((cs.map fun c => ['-', c]) ++ rest))).map Event.erase_text := by
    obtain ⟨front, c, rfl⟩ : ∃ front c, cs = front ++ [c] := by
      rcases List.eq_nil_or_concat cs with h | ⟨L, b, h⟩
      · rw [h] at hn
        simp at hn
      · exact ⟨L, b, by rw [h, List.concat_eq_append]⟩
    have hc : c ≠ '-' := hd c (by simp)
    have hfront : ∀ x ∈ front, x ≠ '-' := fun x hx => hd x (by simp [hx])
    obtain ⟨a, r, rfl⟩ : ∃ a r, front = a :: r := by
      cases front with
      | nil => simp at hn
      | cons a r => exact ⟨a, r, rfl⟩
    have hI : parse_item P ('-' :: (a :: r ++ [c])) = Item.Combi_Item (a :: r ++ [c]) :=
      parse_item_cluster P hca a (r ++ [c]) (hfront a (by simp)) (by simp)
    have hevals : ∀ la, cluster_evals (a :: r ++ [c]) la =
        ((a :: r).map fun x => ([x], none)) ++ [([c], la)] := by
      intro la
      unfold cluster_evals
      rw [List.dropLast_concat, List.drop_left' (by simp)]
    rw [parse_cons, parse_cons, scan_Combi P _ _ rest hI, hevals]
    have hsplit : ((a :: r ++ [c]).map fun c => ['-', c]) ++ rest =
        ((a :: r).map fun x => ['-', x]) ++ ['-', c] :: rest := by
      simp
    rw [hsplit, scan_singles P ('-' :: (a :: r ++ [c])) c rest hc (a :: r) hfront]
  refine ⟨hmain, ?_, ?_, ?_⟩
  · have := congrArg actions_of hmain
    rwa [actions_of_erase, actions_of_erase] at this
  · have := congrArg error_kinds_of hmain
    rwa [error_kinds_of_erase, error_kinds_of_erase] at this
  · have := congrArg positionals_of hmain
    rwa [positionals_of_erase, positionals_of_erase] at this

/-- C13 at a concrete input over the registry of `example/demo.cpp`, combining enabled and
abort-on-error disabled: `-vxc 5 Bob` and `-v -x -c 5 Bob` make the same invocations up to
the text of the `BAD_OPT` report for `x`. -/
theorem cluster_equiv_singles_witness :
    (parse (demo true false) (cmdline ["-vxc", "5", "Bob"])).map Event.erase_text =
      (parse (demo true false) (cmdline ["-v", "-x", "-c", "5", "Bob"])).map
        Event.erase_text :=
  (cluster_equiv_singles (demo true false) rfl "prog".toList "vxc".toList
    ["5".toList, "Bob".toList] (by decide) (by decide)).1

/-! ## The lookahead rule in the `Single_Item` and `Combi_Item` lambdas -/

theorem lookahead_eq_none_iff (P : Parser) (argv : List Str) (end_ p : Nat) :
    lookahead argv end_ p = none ↔
      (p + 1 = end_ ∨ parse_item P (token argv (p + 1)) ≠ Item.Arg_Item) := by
  rw [Ne, parse_item_arg_iff, ← positional_looking, ← is_arg_iff]
  unfold lookahead
  by_cases h1 : p + 1 = end_ <;> cases h2 : is_arg (token argv (p + 1)) <;> simp [h1]

/-- C17. For every string `s` and either combining mode, `is_arg s` holds if and only if
`parse_item s` is `Arg_Item`.  Hence the value offered to `eval` by the `Single_Item` lambda,
and by the `Combi_Item` lambda for the last character of its cluster, is the next string
exactly when that string exists and would itself be classified `Arg_Item`, and is absent
otherwise.  The `Single_Item` lambda evaluates its name with that value; the `Combi_Item`
lambda evaluates every character but the last without value and the last character with
that value; either lambda, unless it stops on an error under abort-on-error, moves the cursor
by 2 when the value is present and by 1 when it is absent.  The same holds of the step of the
option loop on a token classified `Single_Item` or `Combi_Item`. -/
theorem is_arg_iff_positional (P : Parser) (s : Str) (argv : List Str) (end_ p : Nat)
    (name : Str) :
    (is_arg s = true ↔ parse_item P s = Item.Arg_Item) ∧
    (∀ t, lookahead argv end_ p = some t ↔
      (p + 1 ≠ end_ ∧ parse_item P (token argv (p + 1)) = Item.Arg_Item ∧
        t = token argv (p + 1))) ∧
    visit_Single P argv end_ p name =
      (match (eval P name (lookahead argv end_ p)).1 with
      | some e =>
        (if P.abort_on_error = true then end_
          else p + (if (lookahead argv end_ p).isSome = true then 2 else 1),
          (eval P name (lookahead argv end_ p)).2 ++ [Event.on_err ⟨e, token argv p⟩])
      | none =>
        (p + (if (lookahead argv end_ p).isSome = true then 2 else 1),
          (eval P name (lookahead argv end_ p)).2)) ∧
    (lookahead argv end_ p = none ↔
      (p + 1 = end_ ∨ parse_item P (token argv (p + 1)) ≠ Item.Arg_Item)) ∧
    (1 ≤ name.length →
      visit_Combi P argv end_ p name =
        (if (eval_reports P (token argv p)
              ((name.dropLast.map fun c => ([c], none)) ++
                [(name.drop (name.length - 1), lookahead argv end_ p)])).1 = true
          then end_ else p + (if (lookahead argv end_ p).isSome = true then 2 else 1),
          (eval_reports P (token argv p)
              ((name.dropLast.map fun c => ([c], none)) ++
                [(name.drop (name.length - 1), lookahead argv end_ p)])).2)) ∧
    (parse_item P (token argv p) = Item.Single_Item name →
      opt_step P argv end_ p =
        ⟨if (eval P name (lookahead argv end_ p)).1.isSome = true ∧ P.abort_on_error = true
          then end_ else p + (if (lookahead argv end_ p).isSome = true then 2 else 1),
          true, eval_report P (token argv p) name (lookahead argv end_ p)⟩) ∧
    (parse_item P (token argv p) = Item.Combi_Item name →
      opt_step P argv end_ p =
        ⟨if (eval_reports P (token argv p)
              ((name.dropLast.map fun c => ([c], none)) ++
                [(name.drop (name.length - 1), lookahead argv end_ p)])).1 = true
          then end_ else p + (if (lookahead argv end_ p).isSome = true then 2 else 1),
          true,
          (eval_reports P (token argv p)
              ((name.dropLast.map fun c => ([c], none)) ++
                [(name.drop (name.length - 1), lookahead argv end_ p)])).2⟩) := by
  refine ⟨?_, ?_, visit_Single_eq P argv end_ p name, lookahead_eq_none_iff P argv end_ p,
    ?_, opt_step_Single_reports P argv end_ p name, ?_⟩
  · rw [is_arg_iff, parse_item_arg_iff]
    rfl
  · intro t
    rw [lookahead_eq_some_iff, parse_item_arg_iff]
    rfl
  · intro hn
    exact visit_Combi_reports P argv end_ p name hn
  · intro h
    exact opt_step_Combi P argv end_ p name h

/-- C17 at concrete inputs over the registry of `example/demo.cpp`, combining enabled and
abort-on-error disabled.  In `-vc 5 -h` the string after the cluster exists and is classified
`Arg_Item`: it is offered to the last character `c`, and the cursor moves by 2.  In `-vc -h`
the string after the cluster exists but is not classified `Arg_Item`: `c` is evaluated
without value and reports `MISSING_ARG`, and the cursor moves by 1.  In `-c 5` and `-c -h`
the `Single_Item` lambda does the same. -/
theorem is_arg_iff_positional_witness :
    parse_item (demo true false) "5".toList = Item.Arg_Item ∧
    parse_item (demo true false) "-h".toList ≠ Item.Arg_Item ∧
    opt_step (demo true false) (cmdline ["-vc", "5", "-h"]) 4 1 =
      ⟨3, true, [Event.action demo_version none, Event.action demo_count (some "5".toList)]⟩ ∧
    opt_step (demo true false) (cmdline ["-vc", "-h"]) 3 1 =
      ⟨2, true, [Event.action demo_version none,
        Event.on_err ⟨Error_Type.MISSING_ARG, "-vc".toList⟩]⟩ ∧
    opt_step (demo true false) (cmdline ["-c", "5"]) 3 1 =
      ⟨3, true, [Event.action demo_count (some "5".toList)]⟩ ∧
    opt_step (demo true false) (cmdline ["-c", "-h"]) 3 1 =
      ⟨2, true, [Event.on_err ⟨Error_Type.MISSING_ARG, "-c".toList⟩]⟩ :=
  ⟨by decide, by decide,
    ((is_arg_iff_positional (demo true false) [] (cmdline ["-vc", "5", "-h"]) 4 1
      "vc".toList).2.2.2.2.2.2 (by decide)).trans (by decide),
    ((is_arg_iff_positional (demo true false) [] (cmdline ["-vc", "-h"]) 3 1
      "vc".toList).2.2.2.2.2.2 (by decide)).trans (by decide),
    ((is_arg_iff_positional (demo true false) [] (cmdline ["-c", "5"]) 3 1
      "c".toList).2.2.2.2.2.1 (by decide)).trans (by decide),
    ((is_arg_iff_positional (demo true false) [] (cmdline ["-c", "-h"]) 3 1
      "c".toList).2.2.2.2.2.1 (by decide)).trans (by decide)⟩

end argolis
